import Mathlib

/-!
Verification development for the shift-evidence scoring and selection
pipeline of the `shiv-archive` repository.

The definitions below are a shallow embedding of the three generator
scripts (`generate_republic_critical_evidence.py`,
`generate_science_shift_research_packet.py`,
`generate_republic_shift_research_packet.py`):

* Python strings become Lean `String`s, and the regular-expression based
  helpers (`re.sub(r"\s+", " ", ·)`, `str.strip`, `str.lower`, the
  first-sentence and sentence-split regexes, the `lead_group=` search)
  are implemented directly over `List Char`, restricted to ASCII
  whitespace (the corpus text relevant to the claims is ASCII).
* Python `float` scores are modelled as exact rationals (`ℚ`).  All
  score constants (`0.8`, `1.25`, `1.3`, `1.5`, `0.42`, ...) are exact
  decimal fractions, and none of the claims hinges on binary floating
  point rounding at the compared magnitudes.
* Python's stable `list.sort` / `sorted` is modelled by a stable
  insertion sort (`sortStable`): both produce the unique stable
  ordering by the sort key.
* `hashlib.sha1(payload).hexdigest()` is modelled as an injective
  encoding of the payload; we take the payload string itself as the
  fingerprint, so fingerprint equality coincides with payload equality
  (the specification treats the hash as collision free).
* The two near-identical scoring scripts differ only in their keyword
  catalogs and numeric constants; they are embedded as one family of
  functions parameterised by a `Track` record, instantiated by
  `republicTrack` (generate_republic_critical_evidence.py) and
  `scienceTrack` (generate_science_shift_research_packet.py) carrying
  the literal constants of each script.
-/

set_option maxRecDepth 10000

/- `Rat.add` and friends are `@[irreducible]` in Batteries, which blocks
`decide` on concrete rational-score computations; restore the default
reducibility so that the embedded pipeline evaluates. -/
attribute [local semireducible] Rat.add Rat.mul Rat.sub Rat.inv
  Rat.ofScientific

namespace ShivArchive

/-! ### Text normalisation (`normalize`, `strip`, paragraph splitting) -/

/-- ASCII whitespace, as matched by Python's `\s` on ASCII text. -/
def isWs (c : Char) : Bool :=
  c = ' ' || c = '\t' || c = '\n' || c = '\r' || c = '\x0b' || c = '\x0c'

/-- `re.sub(r"\s+", " ", text)`: collapse every maximal whitespace run to a
single space.  The boolean argument records whether the previous character
was part of a whitespace run. -/
def squeezeAux : Bool → List Char → List Char
  | _, [] => []
  | pw, c :: cs =>
    if isWs c then
      if pw then squeezeAux true cs else ' ' :: squeezeAux true cs
    else c :: squeezeAux false cs

/-- `str.strip()` restricted to whitespace. -/
def stripWsChars (cs : List Char) : List Char :=
  ((cs.dropWhile isWs).reverse.dropWhile isWs).reverse

/-- `re.sub(r"\s+", " ", s).strip()` on the character list. -/
def cleanChars (cs : List Char) : List Char :=
  stripWsChars (squeezeAux false cs)

/-- `re.sub(r"\s+", " ", s).strip()` — used by `first_sentence`,
`shorten_quote` and `split_paragraphs`, which do not lowercase. -/
def cleanText (s : String) : String :=
  ⟨cleanChars s.data⟩

/-- `normalize(text)` from the scoring scripts:
`re.sub(r"\s+", " ", (text or "")).strip().lower()`. -/
def normalize (s : String) : String :=
  ⟨(cleanChars s.data).map Char.toLower⟩

/-! ### Substring containment and probe counting -/

/-- Python's `needle in hay` substring test. -/
def hasSubstr (nd : List Char) : List Char → Bool
  | [] => nd.isEmpty
  | c :: t => nd.isPrefixOf (c :: t) || hasSubstr nd t

def strContains (hay nd : String) : Bool :=
  hasSubstr nd.data hay.data

/-- `count_occurrences(text, probes)`: the number of probes that occur in
the text as substrings — one point per probe, regardless of how many
times the probe occurs. -/
def countOccurrences (text : String) (probes : List String) : Nat :=
  probes.countP (fun p => strContains text p)

/-! ### Phases and track configuration -/

/-- The two phases of a shift; the evidence table constrains `phase` to
these two values (`CHECK (phase IN ('before', 'after'))`). -/
inductive Phase where
  | before
  | after
deriving DecidableEq, Repr

def Phase.str : Phase → String
  | .before => "before"
  | .after => "after"

/-- Configuration of one scoring script: keyword catalog, anchor list and
numeric constants.  Each script is one concrete `Track` value. -/
structure Track where
  keywords : Phase → List (String × List String)
  anchors : List String
  bodyCap : Nat
  anchorWeight : ℚ
  tagWeight : ℚ
  tagSignals : Phase → List String
  minParaLen : Nat

/-- `PHASE_KEYWORDS`, `REPUBLIC_ANCHORS`, `TAG_SLUG_SIGNALS` and the
constants `6`, `0.8`, `1.3`, `70` of `generate_republic_critical_evidence.py`. -/
def republicTrack : Track where
  keywords
    | .before =>
      [("institutional_grammar",
        ["constitution", "constitutional", "institution", "nehru", "state",
         "citizenship", "citizen", "left and right", "secularism", "university"]),
       ("decay_diagnostics",
        ["drying up", "sadness", "banal", "mediocre", "decay", "hollow",
         "crisis", "erosion", "impoverishes", "violence"]),
       ("democratic_urgency",
        ["public sphere", "civil society", "dissent", "rights", "ethics",
         "morality", "democracy"])]
    | .after =>
      [("new_grammar",
        ["second republic", "new republic", "reimagining democracy", "improvis",
         "digital", "populist", "knowledge panchayat", "citizen back"]),
       ("embodied_ethics",
        ["body politics", "yatra", "satyagraha", "playfulness", "moral",
         "ethics", "conscience", "peace"]),
       ("plural_futures",
        ["anthropocene", "ecocide", "cognitive justice", "plural", "commons",
         "survival", "knowledge systems"])]
  anchors :=
    ["republic", "constitution", "constitutional", "democracy", "democratic",
     "citizenship", "citizen", "state", "institution", "majoritarian",
     "public sphere"]
  bodyCap := 6
  anchorWeight := 8/10
  tagWeight := 13/10
  tagSignals
    | .before =>
      ["democracy", "law-and-justice", "public-institutions", "public-sphere",
       "nationalism", "secularism", "education-policy"]
    | .after =>
      ["democracy", "pluralism", "ethics", "knowledge-systems", "ecology",
       "technology-and-society", "public-sphere"]
  minParaLen := 70

/-- `PHASE_KEYWORDS`, `SCIENCE_ANCHORS`, `TAG_SIGNALS` and the constants
`7`, `0.85`, `1.25`, `80` of `generate_science_shift_research_packet.py`. -/
def scienceTrack : Track where
  keywords
    | .before =>
      [("institutional_knowledge",
        ["university", "institute", "institution", "csds", "social science",
         "expert", "discipline", "bureaucratic", "big science", "state policy"]),
       ("diagnosing_closure",
        ["sadness", "gasping", "crisis", "hollow", "impoverished", "banal",
         "closure", "authoritarian", "violence"]),
       ("democratic_learning",
        ["commons", "public sphere", "dissent", "dialogue", "secularism",
         "democracy", "citizen", "rights"])]
    | .after =>
      [("distributed_publics",
        ["knowledge panchayat", "distributed", "plural", "cognitive justice",
         "orality", "commons", "publics", "citizen"]),
       ("playful_science",
        ["play", "playfulness", "creative", "imagination", "experiment",
         "beyond big science", "creative society"]),
       ("ethics_of_knowledge",
        ["ethics", "conscience", "humanity", "morality", "peace", "survival",
         "care"])]
  anchors :=
    ["science", "scientific", "social science", "knowledge", "university",
     "expert", "innovation", "technology", "bureaucratic", "commons", "play",
     "playfulness", "panchayat", "cognitive justice", "public"]
  bodyCap := 7
  anchorWeight := 85/100
  tagWeight := 125/100
  tagSignals
    | .before =>
      ["education-policy", "science-policy", "technology-and-society",
       "knowledge-systems", "public-institutions", "university", "secularism"]
    | .after =>
      ["science-policy", "technology-and-society", "knowledge-systems",
       "public-institutions", "pluralism", "ethics", "public-sphere", "ecology"]
  minParaLen := 80

/-- `compute_group_hits(phase, text)`: ordered association list from group
name to the number of the group's probes occurring in `text`. -/
def computeGroupHits (tr : Track) (phase : Phase) (text : String) :
    List (String × Nat) :=
  (tr.keywords phase).map (fun g => (g.1, countOccurrences text g.2))

/-- Result record of `score_article`. -/
structure ScoreResult where
  total : ℚ
  groupHits : List (String × Nat)
  anchorHits : Nat
  activeGroups : Nat
deriving DecidableEq, Repr

/-- `score_article(phase, title, summary, tag_slugs, body_text)`.

The source computes the three dictionaries
`groups_title`, `groups_summary`, `groups_body` (all keyed by the same
group list, in catalog order) and combines them per group as
`title*4 + summary*2 + min(body, cap)`; since all three share the key
order of the catalog, the combined dictionary equals the map below. -/
def scoreArticle (tr : Track) (phase : Phase) (title summary : String)
    (tagSlugs : List String) (body : String) : ScoreResult :=
  let tn := normalize title
  let sn := normalize summary
  let bn := normalize body
  let groupHits := (tr.keywords phase).map (fun g =>
    (g.1, 4 * countOccurrences tn g.2 + 2 * countOccurrences sn g.2 +
      min (countOccurrences bn g.2) tr.bodyCap))
  let phaseScore : ℚ := ((groupHits.map Prod.snd).sum : ℕ)
  let anchorHits := countOccurrences (tn ++ " " ++ sn ++ " " ++ bn) tr.anchors
  let tagScore : ℚ :=
    ((tagSlugs.countP (fun s => (tr.tagSignals phase).contains s) : ℕ) : ℚ) *
      tr.tagWeight
  { total := phaseScore + tagScore + (anchorHits : ℚ) * tr.anchorWeight
    groupHits := groupHits
    anchorHits := anchorHits
    activeGroups := groupHits.countP (fun g => g.2 > 0) }

/-- `strength_label(score)`. -/
def strengthLabel (score : ℚ) : String :=
  if score ≥ 18 then "strong" else if score ≥ 11 then "moderate" else "weak"

/-- The raw-threshold test `should_include` / `include` of both scripts:
`score >= min_score and anchor_hits >= min_anchor_hits and
active_groups >= min_group_hits`. -/
def candidateInclude (minScore : ℚ) (minAnchorHits minGroupHits : Nat)
    (r : ScoreResult) : Bool :=
  decide (r.total ≥ minScore) && r.anchorHits ≥ minAnchorHits &&
    r.activeGroups ≥ minGroupHits

/-! ### Stable sorting (Python's `list.sort` / `sorted`) -/

/-- Stable insertion: `x` is placed before the first element `y` with
`r x y`.  With `r` the non-strict "comes before or ties" relation of the
sort key, `sortStable` computes exactly the stable sort result. -/
def insertStable (r : α → α → Bool) (x : α) : List α → List α
  | [] => [x]
  | y :: l => if r x y then x :: y :: l else y :: insertStable r x l

/-- Stable sort by the boolean relation `r` (`r a b` = "a may come before
b"): the unique stable ordering produced by Python's sort. -/
def sortStable (r : α → α → Bool) : List α → List α
  | [] => []
  | x :: l => insertStable r x (sortStable r l)

theorem insertStable_perm (r : α → α → Bool) (x : α) (l : List α) :
    List.Perm (insertStable r x l) (x :: l) := by
  induction l with
  | nil => simp [insertStable]
  | cons y t ih =>
    by_cases h : r x y = true
    · simp [insertStable, h]
    · simp only [insertStable, h, if_false]
      exact (ih.cons y).trans (List.Perm.swap x y t)

theorem sortStable_perm (r : α → α → Bool) (l : List α) :
    List.Perm (sortStable r l) l := by
  induction l with
  | nil => simp [sortStable]
  | cons x t ih =>
    exact (insertStable_perm r x (sortStable r t)).trans (ih.cons x)

theorem insertStable_pairwise (r : α → α → Bool)
    (htot : ∀ a b, r a b = true ∨ r b a = true)
    (htrans : ∀ a b c, r a b = true → r b c = true → r a c = true)
    (x : α) (l : List α) (h : l.Pairwise (fun a b => r a b = true)) :
    (insertStable r x l).Pairwise (fun a b => r a b = true) := by
  induction l with
  | nil => simp [insertStable]
  | cons y t ih =>
    rcases h with - | ⟨hy, ht⟩
    by_cases hxy : r x y = true
    · simp only [insertStable, hxy, if_true]
      refine List.Pairwise.cons ?_ (List.Pairwise.cons hy ht)
      intro b hb
      rcases List.mem_cons.mp hb with hb | hb
      · subst hb; exact hxy
      · exact htrans x y b hxy (hy b hb)
    · simp only [insertStable, hxy, if_false]
      refine List.Pairwise.cons ?_ (ih ht)
      intro b hb
      have hb' := (insertStable_perm r x t).mem_iff.mp hb
      rcases List.mem_cons.mp hb' with hb' | hb'
      · subst hb'
        rcases htot y b with h' | h'
        · exact h'
        · exact absurd h' hxy
      · exact hy b hb'

theorem sortStable_pairwise (r : α → α → Bool)
    (htot : ∀ a b, r a b = true ∨ r b a = true)
    (htrans : ∀ a b c, r a b = true → r b c = true → r a c = true)
    (l : List α) :
    (sortStable r l).Pairwise (fun a b => r a b = true) := by
  induction l with
  | nil => simp [sortStable]
  | cons x t ih => exact insertStable_pairwise r htot htrans x (sortStable r t) ih

/-- The head of a stable sort is maximal for the sort relation. -/
theorem sortStable_head_max (r : α → α → Bool)
    (htot : ∀ a b, r a b = true ∨ r b a = true)
    (htrans : ∀ a b c, r a b = true → r b c = true → r a c = true)
    (x : α) (l l' : List α) (h : sortStable r l = x :: l') :
    ∀ y ∈ l, y = x ∨ r x y = true := by
  intro y hy
  have hmem : y ∈ sortStable r l := ((sortStable_perm r l).mem_iff).mpr hy
  rw [h] at hmem
  rcases List.mem_cons.mp hmem with hmem | hmem
  · exact Or.inl hmem
  · have hp := sortStable_pairwise r htot htrans l
    rw [h] at hp
    rcases hp with - | ⟨hx, -⟩
    exact Or.inr (hx y hmem)

/-! ### Paragraphs, sentences and quotes -/

/-- `body_text.split("\n\n")`: split on the literal two-newline separator,
left to right, non-overlapping. -/
def splitChunks : List Char → List (List Char)
  | [] => [[]]
  | '\n' :: '\n' :: rest => [] :: splitChunks rest
  | c :: rest =>
    match splitChunks rest with
    | chunk :: more => (c :: chunk) :: more
    | [] => [[c]]

/-- `split_paragraphs(body_text)`: if the body is empty return no
paragraphs, otherwise whitespace-collapse and strip each chunk and keep
the ones of at least the track's minimum length. -/
def splitParagraphs (tr : Track) (body : String) : List String :=
  if body = "" then []
  else
    ((splitChunks body.data).map (fun c => cleanChars c)).filterMap
      (fun c => if c.length ≥ tr.minParaLen then some ⟨c⟩ else none)

/-- Sentence terminators of `first_sentence` and `shorten_quote`. -/
def isSenPunct (c : Char) : Bool :=
  c = '.' || c = '!' || c = '?'

/-- `first_sentence(text)`: collapse and strip, then take the shortest
prefix ending in `.`/`!`/`?` that is followed by whitespace or the end
of the string; if there is none, the whole normalised text.  The
regex's `.+?` demands at least one character before the terminator, so
a terminator at position 0 does not match (`acc ≠ []`). -/
def firstSentenceChars : List Char → List Char → Option (List Char)
  | _, [] => none
  | acc, c :: cs =>
    if isSenPunct c ∧ acc ≠ [] ∧ (cs = [] ∨ (cs.head?.map isWs).getD false) then
      some (acc ++ [c])
    else firstSentenceChars (acc ++ [c]) cs

def firstSentence (text : String) : String :=
  let n := cleanChars text.data
  match firstSentenceChars [] n with
  | some s => ⟨stripWsChars s⟩
  | none => ⟨n⟩

/-- `re.split(r"(?<=[.!?])\s+", clean)`: pieces between whitespace runs
that immediately follow a sentence terminator.  `acc` holds the current
piece reversed; the boolean is true while consuming a separator run. -/
def splitSenGo : Bool → List Char → List Char → List (List Char)
  | _, acc, [] => [acc.reverse]
  | true, acc, c :: cs =>
    if isWs c then splitSenGo true acc cs
    else splitSenGo false [c] cs
  | false, acc, c :: cs =>
    if isWs c ∧ (acc.head?.map isSenPunct).getD false then
      acc.reverse :: splitSenGo true [] cs
    else splitSenGo false (c :: acc) cs

def splitSentenceList (cs : List Char) : List (List Char) :=
  splitSenGo false [] cs

/-- The sentence-accumulation loop of `shorten_quote`: keep adding whole
sentences (plus one joining space after the first) while the running
total stays within `maxChars`; stop at the first overflow. -/
def accSentences (maxChars : Nat) :
    List (List Char) → List (List Char) → Nat → List (List Char)
  | [], sel, _ => sel
  | s :: rest, sel, total =>
    if s = [] then accSentences maxChars rest sel total
    else
      let newTotal := total + s.length + (if sel = [] then 0 else 1)
      if newTotal > maxChars then sel
      else accSentences maxChars rest (sel ++ [s]) newTotal

/-- `clean[:max_chars].rsplit(" ", 1)[0]`: drop the final
space-separated fragment of the truncated text (or keep the whole text
if it has no space). -/
def dropLastWord (cs : List Char) : List Char :=
  let rev := cs.reverse
  if (' ' : Char) ∈ rev then ((rev.dropWhile (fun c => c ≠ ' ')).drop 1).reverse
  else cs

/-- `shorten_quote(paragraph, max_chars=520)`. -/
def shortenQuote (p : String) (maxChars : Nat := 520) : String :=
  let clean := cleanChars p.data
  if clean.length ≤ maxChars then ⟨clean⟩
  else
    let sentences := splitSentenceList clean
    let sel := accSentences maxChars sentences [] 0
    if sel ≠ [] then ⟨stripWsChars (List.intercalate [' '] sel)⟩
    else ⟨stripWsChars (dropLastWord (clean.take maxChars))⟩

/-- `paragraph_score(phase, paragraph)`: flat group hits plus
`anchors * 1.5`. -/
def paragraphScore (tr : Track) (phase : Phase) (paragraph : String) : ℚ :=
  let text := normalize paragraph
  let groupHits := computeGroupHits tr phase text
  let anchors := countOccurrences text tr.anchors
  ((groupHits.map Prod.snd).sum : ℕ) + (anchors : ℚ) * (3/2)

/-- Result of the quote selector: text, source label, confidence. -/
structure Quote where
  text : String
  source : String
  confidence : ℚ
deriving DecidableEq, Repr

/-- `choose_quote(phase, body_text, summary, title)` (named `pick_quote`
in the science script; identical logic).  `sorted(..., key=score,
reverse=True)` is the stable descending sort by paragraph score. -/
def chooseQuote (tr : Track) (phase : Phase) (body summary title : String) :
    Quote :=
  let paragraphs := splitParagraphs tr body
  let ranked := sortStable
    (fun a b => decide (paragraphScore tr phase a ≥ paragraphScore tr phase b))
    paragraphs
  match ranked with
  | best :: _ =>
    if paragraphScore tr phase best > 0 then
      { text := shortenQuote best, source := "body_paragraph"
        confidence := min 1 ((45/100) + paragraphScore tr phase best / 20) }
    else
      if firstSentence summary ≠ "" then
        { text := firstSentence summary, source := "summary_sentence"
          confidence := 42/100 }
      else
        { text := ⟨stripWsChars title.data⟩, source := "title"
          confidence := 25/100 }
  | [] =>
    if firstSentence summary ≠ "" then
      { text := firstSentence summary, source := "summary_sentence"
        confidence := 42/100 }
    else
      { text := ⟨stripWsChars title.data⟩, source := "title"
        confidence := 25/100 }

/-! ### Decimal rendering (`f"{x:.1f}"`, `f"{x:.4f}"`, `f"{n}"`) -/

def digitChar (n : Nat) : Char := Char.ofNat (48 + n)

/-- Decimal digits of `n`, least significant first, with explicit fuel
(the fuel `n + 1` always suffices, and keeps the definition
structurally recursive so that it reduces in the kernel). -/
def digitsRev : Nat → Nat → List Char
  | 0, _ => []
  | fuel + 1, n =>
    if n < 10 then [digitChar n]
    else digitChar (n % 10) :: digitsRev fuel (n / 10)

/-- Decimal digits of a natural number, most significant first
(Python's `f"{n}"`). -/
def natChars (n : Nat) : List Char := (digitsRev (n + 1) n).reverse

def natStr (n : Nat) : String := ⟨natChars n⟩

/-- Fixed-point decimal rendering of a non-negative rational with `k`
fractional digits.  Python formats the IEEE double with round-half-even;
on exact rationals we round half up — the two agree except on exact
half-way doubles, which none of the claims exercises. -/
def formatFixedNN (k : Nat) (q : ℚ) : String :=
  let n : Nat := ((q * ((10 : ℚ) ^ k) + 1/2).floor).toNat
  let whole := n / 10 ^ k
  let frac := n % 10 ^ k
  natStr whole ++ "." ++
    ⟨List.replicate (k - (natChars frac).length) '0' ++ natChars frac⟩

/-- `f"{q:.kf}"`. -/
def formatFixed (k : Nat) (q : ℚ) : String :=
  if q < 0 then "-" ++ formatFixedNN k (-q) else formatFixedNN k q

/-! ### Code-point string order (Python `str` comparison, used by
`sorted(tag_slugs)` and tuple sort keys) -/

def charListLe : List Char → List Char → Bool
  | [], _ => true
  | _ :: _, [] => false
  | a :: as, b :: bs =>
    if a.toNat = b.toNat then charListLe as bs else decide (a.toNat < b.toNat)

def strLe (a b : String) : Bool := charListLe a.data b.data

theorem charListLe_cons (x y : Char) (xs ys : List Char) :
    charListLe (x :: xs) (y :: ys) =
      if x.toNat = y.toNat then charListLe xs ys
      else decide (x.toNat < y.toNat) := rfl

theorem charListLe_total : ∀ a b : List Char,
    charListLe a b = true ∨ charListLe b a = true := by
  intro a
  induction a with
  | nil => intro b; exact Or.inl rfl
  | cons x xs ih =>
    intro b
    cases b with
    | nil => exact Or.inr rfl
    | cons y ys =>
      rw [charListLe_cons, charListLe_cons]
      by_cases h : x.toNat = y.toNat
      · rw [if_pos h, if_pos h.symm]
        exact ih ys
      · rw [if_neg h, if_neg (fun e => h e.symm)]
        rcases Nat.lt_or_ge x.toNat y.toNat with h' | h'
        · exact Or.inl (by simp only [decide_eq_true_eq]; omega)
        · exact Or.inr (by simp only [decide_eq_true_eq]; omega)

theorem charListLe_trans : ∀ a b c : List Char,
    charListLe a b = true → charListLe b c = true → charListLe a c = true := by
  intro a
  induction a with
  | nil => intro b c _ _; rfl
  | cons x xs ih =>
    intro b c hab hbc
    cases b with
    | nil => exact absurd hab (by simp [charListLe])
    | cons y ys =>
      cases c with
      | nil => exact absurd hbc (by simp [charListLe])
      | cons z zs =>
        rw [charListLe_cons] at hab hbc ⊢
        by_cases hxy : x.toNat = y.toNat <;> by_cases hyz : y.toNat = z.toNat
        · rw [if_pos hxy] at hab
          rw [if_pos hyz] at hbc
          rw [if_pos (hxy.trans hyz)]
          exact ih ys zs hab hbc
        · rw [if_pos hxy] at hab
          rw [if_neg hyz, decide_eq_true_eq] at hbc
          rw [if_neg (show x.toNat ≠ z.toNat by omega)]
          simp only [decide_eq_true_eq]; omega
        · rw [if_neg hxy, decide_eq_true_eq] at hab
          rw [if_pos hyz] at hbc
          rw [if_neg (show x.toNat ≠ z.toNat by omega)]
          simp only [decide_eq_true_eq]; omega
        · rw [if_neg hxy, decide_eq_true_eq] at hab
          rw [if_neg hyz, decide_eq_true_eq] at hbc
          rw [if_neg (show x.toNat ≠ z.toNat by omega)]
          simp only [decide_eq_true_eq]; omega

theorem strLe_total (a b : String) : strLe a b = true ∨ strLe b a = true :=
  charListLe_total a.data b.data

theorem strLe_trans (a b c : String) :
    strLe a b = true → strLe b c = true → strLe a c = true :=
  charListLe_trans a.data b.data c.data

/-! ### Rationale rendering and re-parsing -/

/-- The two decision sentences of `build_rationale` in
`generate_republic_critical_evidence.py`. -/
def decisionText (selected : Bool) : String :=
  if selected then
    "Selected for narrative because relevance is high and concept coverage is multi-dimensional."
  else
    "Excluded from core narrative because relevance is insufficient under strict selection criteria."

/-- `build_rationale(phase, score, anchor_hits, group_hits, selected)`:
the `sorted(group_hits.items(), key=item[1], reverse=True)` is the
stable descending sort by hit count. -/
def buildRationale (phase : Phase) (score : ℚ) (anchorHits : Nat)
    (groupHits : List (String × Nat)) (selected : Bool) : String :=
  let strongest := sortStable (fun a b => decide (a.2 ≥ b.2)) groupHits
  let lead := (strongest.head?.map Prod.fst).getD "none"
  let groupSummary :=
    String.intercalate ", " (strongest.map (fun p => p.1 ++ ":" ++ natStr p.2))
  decisionText selected ++ " Score=" ++ formatFixed 1 score ++ "; phase=" ++
    phase.str ++ "; anchors=" ++ natStr anchorHits ++ "; lead_group=" ++ lead ++
    "; group_hits=[" ++ groupSummary ++ "]."

/-- `LEAD_GROUPS` of `generate_republic_shift_research_packet.py`. -/
def leadGroups : List String :=
  ["institutional_grammar", "decay_diagnostics", "democratic_urgency",
   "new_grammar", "embodied_ethics", "plural_futures", "cross_currents"]

/-- The literal part of the pattern `lead_group=([a-z_]+)`. -/
def leadPat : List Char := "lead_group=".data

/-- The character class `[a-z_]`. -/
def isLgWord (c : Char) : Bool :=
  (97 ≤ c.toNat && c.toNat ≤ 122) || c = '_'

/-- Leftmost match of `re.search(r"lead_group=([a-z_]+)", s)`: the first
position where the literal is followed by at least one `[a-z_]`
character; the capture is the maximal such run. -/
def findLeadGroupCapture : List Char → Option (List Char)
  | [] => none
  | c :: cs =>
    if leadPat.isPrefixOf (c :: cs) ∧
        (((c :: cs).drop 11).head?.map isLgWord).getD false then
      some (((c :: cs).drop 11).takeWhile isLgWord)
    else findLeadGroupCapture cs

/-- `parse_lead_group(rationale)`. -/
def parseLeadGroup (rationale : String) : String :=
  let captured : String :=
    match findLeadGroupCapture rationale.data with
    | some cs => ⟨stripWsChars cs⟩
    | none => ""
  if leadGroups.contains captured then captured else "cross_currents"

/-! ### Fingerprints (`build_fingerprint`)

`hashlib.sha1(payload.encode("utf-8")).hexdigest()` is modelled as an
injective encoding of `payload`; we identify the fingerprint with the
payload string, so fingerprint equality is payload equality. -/

/-- `build_fingerprint(article_uid, phase, score, summary, tag_slugs,
quote)` of `generate_republic_critical_evidence.py`: the
"|"-joined payload of the six processed components. -/
def buildFingerprint (uid : String) (phase : Phase) (score : ℚ)
    (summary : String) (tagSlugs : List String) (quote : String) : String :=
  uid ++ "|" ++ phase.str ++ "|" ++ formatFixed 4 score ++ "|" ++
    normalize summary ++ "|" ++
    String.intercalate "," (sortStable strLe tagSlugs) ++ "|" ++
    normalize quote

/-- `build_fingerprint(article_uid, phase, score, quote, tags)` of
`generate_science_shift_research_packet.py`: five components, and no
summary component. -/
def buildFingerprintScience (uid : String) (phase : Phase) (score : ℚ)
    (quote : String) (tags : List String) : String :=
  uid ++ "|" ++ phase.str ++ "|" ++ formatFixed 4 score ++ "|" ++
    normalize quote ++ "|" ++
    String.intercalate "," (sortStable strLe tags)

/-! ### Selection in `generate_republic_critical_evidence.py` (`main`) -/

/-- The candidate fields consumed by the per-phase selection of the
critical-evidence script. -/
structure CritRow where
  article_uid : String
  phase : Phase
  score : ℚ
  published_at : String
  title : String
  /-- The candidate's `include` flag (`include` is a Lean keyword). -/
  includeFlag : Bool
deriving DecidableEq, Repr

/-- The sort key `(-row["score"], row["published_at"])` as a non-strict
"may come before" relation. -/
def critKeyLe (a b : CritRow) : Bool :=
  if a.score = b.score then strLe a.published_at b.published_at
  else decide (b.score < a.score)

/-- Per-phase selection of the critical-evidence script: filter to the
phase's threshold-passing candidates, stable-sort by
`(-score, published_at)`, take the first `max_per_phase`. -/
def critPhasePicks (cands : List CritRow) (cap : Nat) (p : Phase) :
    List CritRow :=
  (sortStable critKeyLe
    (cands.filter (fun r => r.phase = p && r.includeFlag))).take cap

/-- The ordering claimed by the specification, with the extra
`title ascending` tie-break (this definition follows the spec's words,
for comparison against `critKeyLe`; the cited scripts do not implement
the title tie-break). -/
def specKeyLe (a b : CritRow) : Bool :=
  if a.score = b.score then
    if a.published_at = b.published_at then strLe a.title b.title
    else strLe a.published_at b.published_at
  else decide (b.score < a.score)

/-- Per-phase selection as the specification words it: same filter and
cap, but sorted with the title tie-break. -/
def specPhasePicks (cands : List CritRow) (cap : Nat) (p : Phase) :
    List CritRow :=
  (sortStable specKeyLe
    (cands.filter (fun r => r.phase = p && r.includeFlag))).take cap

/-! ### Selection in `generate_republic_shift_research_packet.py`
(`select_records`) -/

/-- The candidate fields consumed by `select_records`. -/
structure PacketRow where
  article_uid : String
  phase : Phase
  published_date : String
  title : String
  relevance_score : ℚ
  candidate_include : Bool
  text_state : String
  rationale : String
deriving DecidableEq, Repr

/-- The sort key `(-relevance_score, published_date, title)`. -/
def packetKeyLe (a b : PacketRow) : Bool :=
  if a.relevance_score = b.relevance_score then
    if a.published_date = b.published_date then strLe a.title b.title
    else strLe a.published_date b.published_date
  else decide (b.relevance_score < a.relevance_score)

def phaseRowsOf (cands : List PacketRow) (p : Phase) : List PacketRow :=
  cands.filter (fun r => r.phase = p)

/-- The full-text gate `not full_text_only or text_state == "full"`. -/
def ftOk (ftOnly : Bool) (r : PacketRow) : Bool :=
  !ftOnly || r.text_state = "full"

def eligibleRows (cands : List PacketRow) (p : Phase) (ftOnly : Bool) :
    List PacketRow :=
  (phaseRowsOf cands p).filter (fun r => ftOk ftOnly r && r.candidate_include)

/-- The backfill pool: phase rows passing the full-text gate whose uid
was not already picked, in the same sort order. -/
def fallbackPool (cands : List PacketRow) (p : Phase) (ftOnly : Bool)
    (pickedUids : List String) : List PacketRow :=
  sortStable packetKeyLe
    ((phaseRowsOf cands p).filter
      (fun r => ftOk ftOnly r && !(pickedUids.contains r.article_uid)))

/-- The per-phase picks of `select_records`: threshold passers sorted and
capped, then (with backfill on and the cap not reached) extended from the
fallback pool until the cap is reached or the pool is exhausted. -/
def picksFor (cands : List PacketRow) (cap : Nat) (ftOnly backfill : Bool)
    (p : Phase) : List PacketRow :=
  let picks := (sortStable packetKeyLe (eligibleRows cands p ftOnly)).take cap
  if backfill ∧ picks.length < cap then
    picks ++
      (fallbackPool cands p ftOnly (picks.map (·.article_uid))).take
        (cap - picks.length)
  else picks

def selectedUidsFor (cands : List PacketRow) (cap : Nat)
    (ftOnly backfill : Bool) (p : Phase) : List String :=
  (picksFor cands cap ftOnly backfill p).map (·.article_uid)

/-- `str.lower()`. -/
def lowerStr (s : String) : String := ⟨s.data.map Char.toLower⟩

/-- `classify_unselected_reason(row, full_text_only)`. -/
def classifyUnselectedReason (row : PacketRow) (ftOnly : Bool) : String :=
  if row.candidate_include && ftOnly && !(row.text_state = "full") then
    "blocked_non_full_text"
  else if row.candidate_include then
    if strContains (lowerStr row.rationale) "per-phase cap" then
      "below_phase_cap"
    else "below_cutoff"
  else "below_cutoff"

/-- Whether `select_records` marks the row `include_in_story`. -/
def rowSelected (cands : List PacketRow) (cap : Nat) (ftOnly backfill : Bool)
    (row : PacketRow) : Bool :=
  (selectedUidsFor cands cap ftOnly backfill row.phase).contains row.article_uid

/-- The `selection_reason` assigned by `select_records`. -/
def selectionReasonFor (cands : List PacketRow) (cap : Nat)
    (ftOnly backfill : Bool) (row : PacketRow) : String :=
  if rowSelected cands cap ftOnly backfill row then
    if row.candidate_include then "passed_threshold"
    else "backfill_to_phase_cap"
  else classifyUnselectedReason row ftOnly

/-- The `selected_records` list (before its final presentation sort,
which permutes but does not change membership). -/
def selectedRecords (cands : List PacketRow) (cap : Nat)
    (ftOnly backfill : Bool) : List PacketRow :=
  cands.filter (rowSelected cands cap ftOnly backfill)

/-! ### Run ledger and persistence (`main` of the critical script)

The analysis connection is a Python `sqlite3` connection with the
default deferred transaction handling: `INSERT`/`UPDATE` statements
write to the open transaction, reads on the same connection see those
uncommitted writes, `conn.commit()` makes the transaction durable, and
a crash or exit without commit rolls the whole transaction back.  The
script calls `analysis_conn.commit()` exactly once, after the sealing
`UPDATE`.  `DbState.durable` is what is on disk; `DbState.txn` is the
open transaction. -/

inductive DbRow where
  | runRow (run_uid : String) (sealed : Bool) (inserted_count skipped_count : Nat)
  | evidenceRow (article_uid version input_fingerprint run_uid : String)
deriving DecidableEq, Repr

structure DbState where
  durable : List DbRow
  txn : List DbRow
deriving DecidableEq, Repr

def insertTxn (st : DbState) (row : DbRow) : DbState :=
  { st with txn := st.txn ++ [row] }

def commitTxn (st : DbState) : DbState :=
  { durable := st.durable ++ st.txn, txn := [] }

/-- Crash / error exit before `commit()`: the open transaction is lost. -/
def crashNow (st : DbState) : DbState :=
  { durable := st.durable, txn := [] }

/-- The candidate data the insert loop fingerprints. -/
structure EvidenceCand where
  article_uid : String
  phase : Phase
  score : ℚ
  summary : String
  tag_slugs : List String
  quote_text : String
deriving DecidableEq, Repr

def candFingerprint (c : EvidenceCand) : String :=
  buildFingerprint c.article_uid c.phase c.score c.summary c.tag_slugs
    c.quote_text

/-- Whether a row is an EvidenceRecord with the given
`(article_uid, version, input_fingerprint)` key. -/
def evMatch (uid v fp : String) : DbRow → Bool
  | .evidenceRow u v' f _ => u = uid && v' = v && f = fp
  | _ => false

/-- The duplicate-check `SELECT 1 FROM republic_shift_evidence WHERE
article_uid = ? AND version = ? AND input_fingerprint = ?`, reading
through the connection (so it sees both durable rows and the open
transaction). -/
def evidencePresent (st : DbState) (uid v fp : String) : Bool :=
  (st.durable ++ st.txn).any (evMatch uid v fp)

/-- The per-candidate loop of `main`: skip when the `(article_uid,
version, input_fingerprint)` key already exists, insert otherwise,
counting `inserted` and `skipped`. -/
def insertLoop (v ru : String) :
    List EvidenceCand → DbState → Nat → Nat → DbState × Nat × Nat
  | [], st, ins, skip => (st, ins, skip)
  | c :: cs, st, ins, skip =>
    if evidencePresent st c.article_uid v (candFingerprint c) then
      insertLoop v ru cs st ins (skip + 1)
    else
      insertLoop v ru cs
        (insertTxn st (.evidenceRow c.article_uid v (candFingerprint c) ru))
        (ins + 1) skip

/-- The row transformation of the sealing `UPDATE`: set `finished_at`
(modelled by the `sealed` flag) and the final counts on the matching
Run row, leave every other row unchanged. -/
def sealMap (ru : String) (ins skip : Nat) : DbRow → DbRow
  | .runRow u sealed i s =>
    if u = ru then .runRow u true ins skip else .runRow u sealed i s
  | r => r

/-- The sealing `UPDATE republic_shift_evidence_runs SET finished_at =
CURRENT_TIMESTAMP, inserted_count = ?, skipped_count = ? ... WHERE
run_uid = ?` (the per-phase selected counts are irrelevant to the
claims and omitted). -/
def sealRun (ru : String) (ins skip : Nat) (st : DbState) : DbState :=
  { st with txn := st.txn.map (sealMap ru ins skip) }

/-- One non-dry-run invocation of `main` on an already-scored candidate
list: open a Run row, run the insert loop, seal the Run with the final
counts, commit.  Returns the committed state and the two counters. -/
def runScriptFull (v ru : String) (cands : List EvidenceCand)
    (st0 : DbState) : DbState × Nat × Nat :=
  let st1 := insertTxn st0 (.runRow ru false 0 0)
  let r := insertLoop v ru cands st1 0 0
  (commitTxn (sealRun ru r.2.1 r.2.2 r.1), r.2.1, r.2.2)

/-- The same invocation crashing after the Run-open insert and the first
`k` candidates, before the seal and the final `commit()`. -/
def runScriptCrash (v ru : String) (cands : List EvidenceCand) (k : Nat)
    (st0 : DbState) : DbState :=
  let st1 := insertTxn st0 (.runRow ru false 0 0)
  let r := insertLoop v ru (cands.take k) st1 0 0
  crashNow r.1

def isEvidenceRow : DbRow → Bool
  | .evidenceRow _ _ _ _ => true
  | _ => false

/-! ### Lemmas about the insert loop and the transaction model -/

theorem evidencePresent_mono (st st' : DbState) (u v fp : String)
    (hd : st'.durable = st.durable) (ht : ∃ Δ, st'.txn = st.txn ++ Δ)
    (h : evidencePresent st u v fp = true) :
    evidencePresent st' u v fp = true := by
  obtain ⟨Δ, hΔ⟩ := ht
  unfold evidencePresent at h ⊢
  rw [hd, hΔ, ← List.append_assoc, List.any_append, h]
  rfl

theorem evidencePresent_insertTxn_self (st : DbState) (u v fp ru : String) :
    evidencePresent (insertTxn st (.evidenceRow u v fp ru)) u v fp = true := by
  unfold evidencePresent insertTxn
  simp [List.any_append, evMatch]

theorem insertLoop_shape (v ru : String) :
    ∀ (cands : List EvidenceCand) (st : DbState) (ins skip : Nat),
      (insertLoop v ru cands st ins skip).1.durable = st.durable ∧
      ∃ Δ, (insertLoop v ru cands st ins skip).1.txn = st.txn ++ Δ := by
  intro cands
  induction cands with
  | nil => exact fun st ins skip => ⟨rfl, [], by simp [insertLoop]⟩
  | cons c cs ih =>
    intro st ins skip
    by_cases h : evidencePresent st c.article_uid v (candFingerprint c) = true
    · simpa only [insertLoop, h, if_true] using ih st ins (skip + 1)
    · simp only [insertLoop, h, if_false, Bool.false_eq_true]
      obtain ⟨hd, Δ, hΔ⟩ :=
        ih (insertTxn st (.evidenceRow c.article_uid v (candFingerprint c) ru))
          (ins + 1) skip
      refine ⟨hd.trans rfl, .evidenceRow c.article_uid v (candFingerprint c) ru :: Δ, ?_⟩
      rw [hΔ]
      simp [insertTxn]

theorem insertLoop_all_present (v ru : String) :
    ∀ (cands : List EvidenceCand) (st : DbState) (ins skip : Nat),
      ∀ c ∈ cands,
        evidencePresent (insertLoop v ru cands st ins skip).1 c.article_uid v
          (candFingerprint c) = true := by
  intro cands
  induction cands with
  | nil => intro st ins skip c hc; cases hc
  | cons c0 cs ih =>
    intro st ins skip c hc
    by_cases h : evidencePresent st c0.article_uid v (candFingerprint c0) = true
    · simp only [insertLoop, h, if_true]
      rcases List.mem_cons.mp hc with hc | hc
      · subst hc
        obtain ⟨hd, hΔ⟩ := insertLoop_shape v ru cs st ins (skip + 1)
        exact evidencePresent_mono st _ _ _ _ hd hΔ h
      · exact ih st ins (skip + 1) c hc
    · simp only [insertLoop, h, if_false, Bool.false_eq_true]
      set st1 := insertTxn st (.evidenceRow c0.article_uid v (candFingerprint c0) ru)
        with hst1
      rcases List.mem_cons.mp hc with hc | hc
      · subst hc
        obtain ⟨hd, hΔ⟩ := insertLoop_shape v ru cs st1 (ins + 1) skip
        exact evidencePresent_mono st1 _ _ _ _ hd hΔ
          (evidencePresent_insertTxn_self st _ _ _ _)
      · exact ih st1 (ins + 1) skip c hc

theorem insertLoop_all_skipped (v ru : String) :
    ∀ (cands : List EvidenceCand) (st : DbState) (ins skip : Nat),
      (∀ c ∈ cands,
        evidencePresent st c.article_uid v (candFingerprint c) = true) →
      insertLoop v ru cands st ins skip = (st, ins, skip + cands.length) := by
  intro cands
  induction cands with
  | nil => intro st ins skip _; simp [insertLoop]
  | cons c0 cs ih =>
    intro st ins skip hall
    have h0 := hall c0 (List.mem_cons_self c0 cs)
    simp only [insertLoop, h0, if_true]
    rw [ih st ins (skip + 1) (fun c hc => hall c (List.mem_cons_of_mem c0 hc))]
    simp only [List.length_cons, Prod.mk.injEq, true_and]
    omega

theorem evMatch_sealMap (ru : String) (i s : Nat) (u v fp : String)
    (row : DbRow) : evMatch u v fp (sealMap ru i s row) = evMatch u v fp row := by
  cases row with
  | runRow a b c d =>
    simp only [sealMap]
    split <;> rfl
  | evidenceRow a b c d => rfl

theorem evidencePresent_seal_commit (ru : String) (i s : Nat) (st : DbState)
    (u v fp : String) :
    evidencePresent (commitTxn (sealRun ru i s st)) u v fp =
      evidencePresent st u v fp := by
  unfold evidencePresent commitTxn sealRun
  simp only [List.append_nil, List.any_append, List.any_map]
  have : (evMatch u v fp ∘ sealMap ru i s) = evMatch u v fp := by
    funext row
    simp [Function.comp, evMatch_sealMap]
  rw [this]

/-! ### C1 -/

/-- C1: for every database state and candidate list, running the
evidence pipeline a second time with identical candidate inputs and the
same `version` inserts zero new EvidenceRecords: each candidate's
recomputed fingerprint is found under `(article_uid, version,
input_fingerprint)`, so the second run reports `inserted_count = 0`,
`skipped_count = candidate count`, and leaves the durable
EvidenceRecords exactly as the first run left them. -/
theorem c1_second_run_inserts_nothing (v ru ru' : String)
    (cands : List EvidenceCand) (st0 : DbState) :
    (runScriptFull v ru' cands (runScriptFull v ru cands st0).1).2.1 = 0 ∧
    (runScriptFull v ru' cands (runScriptFull v ru cands st0).1).2.2 =
      cands.length ∧
    (runScriptFull v ru' cands
        (runScriptFull v ru cands st0).1).1.durable.filter isEvidenceRow =
      (runScriptFull v ru cands st0).1.durable.filter isEvidenceRow := by
  have hpres1 : ∀ c ∈ cands,
      evidencePresent (runScriptFull v ru cands st0).1 c.article_uid v
        (candFingerprint c) = true := by
    intro c hc
    simp only [runScriptFull]
    rw [evidencePresent_seal_commit]
    exact insertLoop_all_present v ru cands _ 0 0 c hc
  have hpresB : ∀ c ∈ cands,
      evidencePresent
        (insertTxn (runScriptFull v ru cands st0).1 (.runRow ru' false 0 0))
        c.article_uid v (candFingerprint c) = true := by
    intro c hc
    exact evidencePresent_mono (runScriptFull v ru cands st0).1
      (insertTxn (runScriptFull v ru cands st0).1 (.runRow ru' false 0 0))
      _ _ _ rfl ⟨[.runRow ru' false 0 0], rfl⟩ (hpres1 c hc)
  have hloop2 := insertLoop_all_skipped v ru' cands
    (insertTxn (runScriptFull v ru cands st0).1 (.runRow ru' false 0 0)) 0 0
    hpresB
  have hTxn : (runScriptFull v ru cands st0).1.txn = [] := rfl
  generalize hS : (runScriptFull v ru cands st0).1 = S at hloop2 hTxn ⊢
  refine ⟨?_, ?_, ?_⟩
  · simp only [runScriptFull]
    rw [hloop2]
  · simp only [runScriptFull]
    rw [hloop2]
    simp
  · simp only [runScriptFull]
    rw [hloop2]
    simp [commitTxn, sealRun, insertTxn, hTxn, sealMap, isEvidenceRow,
      List.filter_append]

/-! ### C9 -/

/-- C9, counterexample: the script commits once, at the very end.  On an
empty database with one candidate, the insert loop does write the open
Run row and one EvidenceRecord into the transaction, but a crash after
that insert and before the seal/commit rolls everything back: the
durable database is empty — the Run row is *not* persisted unsealed and
the inserted EvidenceRecord is *not* durably committed, contrary to the
claim. -/
theorem c9_crash_counterexample :
    (insertLoop "critical_v1" "run-1"
        [⟨"a1", Phase.before, 20, "s", [], "q"⟩]
        (insertTxn ⟨[], []⟩ (.runRow "run-1" false 0 0)) 0 0).1.txn =
      [.runRow "run-1" false 0 0,
       .evidenceRow "a1" "critical_v1"
         (candFingerprint ⟨"a1", Phase.before, 20, "s", [], "q"⟩) "run-1"] ∧
    (runScriptCrash "critical_v1" "run-1"
        [⟨"a1", Phase.before, 20, "s", [], "q"⟩] 1 ⟨[], []⟩).durable = [] := by
  constructor
  · rfl
  · rfl

/-- C9 amended: because the only `commit()` follows the sealing
`UPDATE`, an error or crash at any point of the candidate loop (before
the seal) leaves the durable database exactly as it was before the run —
no unsealed Run row and no partially inserted EvidenceRecords survive;
persistence is atomic at run granularity, and only a completed run
makes its (already sealed) Run row and EvidenceRecords durable. -/
theorem c9_crash_rolls_back (v ru : String) (cands : List EvidenceCand)
    (k : Nat) (st0 : DbState) :
    (runScriptCrash v ru cands k st0).durable = st0.durable ∧
    (runScriptCrash v ru cands k st0).txn = [] ∧
    (.runRow ru true
        (insertLoop v ru cands (insertTxn st0 (.runRow ru false 0 0)) 0 0).2.1
        (insertLoop v ru cands (insertTxn st0 (.runRow ru false 0 0)) 0 0).2.2)
      ∈ (runScriptFull v ru cands st0).1.durable := by
  refine ⟨?_, rfl, ?_⟩
  · unfold runScriptCrash crashNow
    exact (insertLoop_shape v ru (cands.take k)
      (insertTxn st0 (.runRow ru false 0 0)) 0 0).1
  · simp only [runScriptFull, commitTxn, sealRun]
    obtain ⟨-, Δ, hΔ⟩ := insertLoop_shape v ru cands
      (insertTxn st0 (.runRow ru false 0 0)) 0 0
    rw [hΔ]
    refine List.mem_append_right _ ?_
    simp only [insertTxn, List.map_append, List.append_assoc]
    refine List.mem_append_right _ (List.mem_append_left _ ?_)
    simp [sealMap]

/-! ### C3 -/

/-- C3, counterexample: the fingerprint hashes the *normalised* summary,
so changing the summary from `"A"` to `"a"` (a genuine change of the
summary input) leaves `input_fingerprint` unchanged, contradicting
"changing any one of summary, tag_slugs, quote_text, or score changes
the fingerprint". -/
theorem c3_fingerprint_counterexample :
    buildFingerprint "u" Phase.before 1 "A" [] "q" =
      buildFingerprint "u" Phase.before 1 "a" [] "q" ∧
    ("A" : String) ≠ "a" := by
  constructor
  · rfl
  · decide

/-- C3 amended, part 1 (republic script): the fingerprint is a function
of exactly `(article_uid, phase, score at 4 decimals, normalized
summary, sorted tag slugs, normalized quote)`. -/
theorem buildFingerprint_congr (uid : String) (p : Phase) (s s' : ℚ)
    (sum sum' : String) (tags tags' : List String) (q q' : String)
    (h1 : formatFixed 4 s = formatFixed 4 s')
    (h2 : normalize sum = normalize sum')
    (h3 : String.intercalate "," (sortStable strLe tags) =
      String.intercalate "," (sortStable strLe tags'))
    (h4 : normalize q = normalize q') :
    buildFingerprint uid p s sum tags q =
      buildFingerprint uid p s' sum' tags' q' := by
  simp only [buildFingerprint]
  rw [h1, h2, h3, h4]

theorem buildFingerprint_score_ne (uid : String) (p : Phase) (s s' : ℚ)
    (sum : String) (tags : List String) (q : String)
    (h : formatFixed 4 s ≠ formatFixed 4 s') :
    buildFingerprint uid p s sum tags q ≠
      buildFingerprint uid p s' sum tags q := by
  intro he
  apply h
  have hd := congrArg String.data he
  simp only [buildFingerprint, String.data_append, List.append_assoc] at hd
  replace hd := List.append_cancel_left hd
  replace hd := List.append_cancel_left hd
  replace hd := List.append_cancel_left hd
  replace hd := List.append_cancel_left hd
  exact String.ext (List.append_cancel_right hd)

theorem buildFingerprint_summary_ne (uid : String) (p : Phase) (s : ℚ)
    (sum sum' : String) (tags : List String) (q : String)
    (h : normalize sum ≠ normalize sum') :
    buildFingerprint uid p s sum tags q ≠
      buildFingerprint uid p s sum' tags q := by
  intro he
  apply h
  have hd := congrArg String.data he
  simp only [buildFingerprint, String.data_append, List.append_assoc] at hd
  replace hd := List.append_cancel_left hd
  replace hd := List.append_cancel_left hd
  replace hd := List.append_cancel_left hd
  replace hd := List.append_cancel_left hd
  replace hd := List.append_cancel_left hd
  replace hd := List.append_cancel_left hd
  exact String.ext (List.append_cancel_right hd)

theorem buildFingerprint_tags_ne (uid : String) (p : Phase) (s : ℚ)
    (sum : String) (tags tags' : List String) (q : String)
    (h : String.intercalate "," (sortStable strLe tags) ≠
      String.intercalate "," (sortStable strLe tags')) :
    buildFingerprint uid p s sum tags q ≠
      buildFingerprint uid p s sum tags' q := by
  intro he
  apply h
  have hd := congrArg String.data he
  simp only [buildFingerprint, String.data_append, List.append_assoc] at hd
  replace hd := List.append_cancel_left hd
  replace hd := List.append_cancel_left hd
  replace hd := List.append_cancel_left hd
  replace hd := List.append_cancel_left hd
  replace hd := List.append_cancel_left hd
  replace hd := List.append_cancel_left hd
  replace hd := List.append_cancel_left hd
  replace hd := List.append_cancel_left hd
  exact String.ext (List.append_cancel_right hd)

theorem buildFingerprint_quote_ne (uid : String) (p : Phase) (s : ℚ)
    (sum : String) (tags : List String) (q q' : String)
    (h : normalize q ≠ normalize q') :
    buildFingerprint uid p s sum tags q ≠
      buildFingerprint uid p s sum tags q' := by
  intro he
  apply h
  have hd := congrArg String.data he
  simp only [buildFingerprint, String.data_append, List.append_assoc] at hd
  replace hd := List.append_cancel_left hd
  replace hd := List.append_cancel_left hd
  replace hd := List.append_cancel_left hd
  replace hd := List.append_cancel_left hd
  replace hd := List.append_cancel_left hd
  replace hd := List.append_cancel_left hd
  replace hd := List.append_cancel_left hd
  replace hd := List.append_cancel_left hd
  replace hd := List.append_cancel_left hd
  replace hd := List.append_cancel_left hd
  exact String.ext hd

/-- Science-script fingerprint: function of exactly `(article_uid,
phase, score at 4 decimals, normalized quote, sorted tags)` — note there
is no summary component at all. -/
theorem buildFingerprintScience_congr (uid : String) (p : Phase) (s s' : ℚ)
    (q q' : String) (tags tags' : List String)
    (h1 : formatFixed 4 s = formatFixed 4 s')
    (h2 : normalize q = normalize q')
    (h3 : String.intercalate "," (sortStable strLe tags) =
      String.intercalate "," (sortStable strLe tags')) :
    buildFingerprintScience uid p s q tags =
      buildFingerprintScience uid p s' q' tags' := by
  simp only [buildFingerprintScience]
  rw [h1, h2, h3]

theorem buildFingerprintScience_score_ne (uid : String) (p : Phase)
    (s s' : ℚ) (q : String) (tags : List String)
    (h : formatFixed 4 s ≠ formatFixed 4 s') :
    buildFingerprintScience uid p s q tags ≠
      buildFingerprintScience uid p s' q tags := by
  intro he
  apply h
  have hd := congrArg String.data he
  simp only [buildFingerprintScience, String.data_append,
    List.append_assoc] at hd
  replace hd := List.append_cancel_left hd
  replace hd := List.append_cancel_left hd
  replace hd := List.append_cancel_left hd
  replace hd := List.append_cancel_left hd
  exact String.ext (List.append_cancel_right hd)

theorem buildFingerprintScience_quote_ne (uid : String) (p : Phase) (s : ℚ)
    (q q' : String) (tags : List String)
    (h : normalize q ≠ normalize q') :
    buildFingerprintScience uid p s q tags ≠
      buildFingerprintScience uid p s q' tags := by
  intro he
  apply h
  have hd := congrArg String.data he
  simp only [buildFingerprintScience, String.data_append,
    List.append_assoc] at hd
  replace hd := List.append_cancel_left hd
  replace hd := List.append_cancel_left hd
  replace hd := List.append_cancel_left hd
  replace hd := List.append_cancel_left hd
  replace hd := List.append_cancel_left hd
  replace hd := List.append_cancel_left hd
  exact String.ext (List.append_cancel_right hd)

theorem buildFingerprintScience_tags_ne (uid : String) (p : Phase) (s : ℚ)
    (q : String) (tags tags' : List String)
    (h : String.intercalate "," (sortStable strLe tags) ≠
      String.intercalate "," (sortStable strLe tags')) :
    buildFingerprintScience uid p s q tags ≠
      buildFingerprintScience uid p s q tags' := by
  intro he
  apply h
  have hd := congrArg String.data he
  simp only [buildFingerprintScience, String.data_append,
    List.append_assoc] at hd
  replace hd := List.append_cancel_left hd
  replace hd := List.append_cancel_left hd
  replace hd := List.append_cancel_left hd
  replace hd := List.append_cancel_left hd
  replace hd := List.append_cancel_left hd
  replace hd := List.append_cancel_left hd
  replace hd := List.append_cancel_left hd
  replace hd := List.append_cancel_left hd
  exact String.ext hd

/-- C3 amended: in each scoring script, `input_fingerprint` is a
function of exactly its processed inputs — for the republic script
`(article_uid, phase, score formatted to 4 decimals, normalized
summary, sorted tag slugs, normalized quote)`, for the science script
the same minus the summary component — and changing exactly one
processed component (the normalized summary, the sorted tag-slug
string, the normalized quote, or the score at 4-decimal precision)
while the others stay fixed changes the fingerprint; changing none of
the processed components keeps it identical. -/
theorem c3_fingerprint_sensitivity_amended :
    (∀ (uid : String) (p : Phase) (s s' : ℚ) (sum sum' : String)
        (tags tags' : List String) (q q' : String),
      formatFixed 4 s = formatFixed 4 s' →
      normalize sum = normalize sum' →
      String.intercalate "," (sortStable strLe tags) =
        String.intercalate "," (sortStable strLe tags') →
      normalize q = normalize q' →
      buildFingerprint uid p s sum tags q =
        buildFingerprint uid p s' sum' tags' q') ∧
    (∀ (uid : String) (p : Phase) (s s' : ℚ) (sum : String)
        (tags : List String) (q : String),
      formatFixed 4 s ≠ formatFixed 4 s' →
      buildFingerprint uid p s sum tags q ≠
        buildFingerprint uid p s' sum tags q) ∧
    (∀ (uid : String) (p : Phase) (s : ℚ) (sum sum' : String)
        (tags : List String) (q : String),
      normalize sum ≠ normalize sum' →
      buildFingerprint uid p s sum tags q ≠
        buildFingerprint uid p s sum' tags q) ∧
    (∀ (uid : String) (p : Phase) (s : ℚ) (sum : String)
        (tags tags' : List String) (q : String),
      String.intercalate "," (sortStable strLe tags) ≠
        String.intercalate "," (sortStable strLe tags') →
      buildFingerprint uid p s sum tags q ≠
        buildFingerprint uid p s sum tags' q) ∧
    (∀ (uid : String) (p : Phase) (s : ℚ) (sum : String)
        (tags : List String) (q q' : String),
      normalize q ≠ normalize q' →
      buildFingerprint uid p s sum tags q ≠
        buildFingerprint uid p s sum tags q') ∧
    (∀ (uid : String) (p : Phase) (s s' : ℚ) (q q' : String)
        (tags tags' : List String),
      formatFixed 4 s = formatFixed 4 s' →
      normalize q = normalize q' →
      String.intercalate "," (sortStable strLe tags) =
        String.intercalate "," (sortStable strLe tags') →
      buildFingerprintScience uid p s q tags =
        buildFingerprintScience uid p s' q' tags') ∧
    (∀ (uid : String) (p : Phase) (s s' : ℚ) (q : String)
        (tags : List String),
      formatFixed 4 s ≠ formatFixed 4 s' →
      buildFingerprintScience uid p s q tags ≠
        buildFingerprintScience uid p s' q tags) ∧
    (∀ (uid : String) (p : Phase) (s : ℚ) (q q' : String)
        (tags : List String),
      normalize q ≠ normalize q' →
      buildFingerprintScience uid p s q tags ≠
        buildFingerprintScience uid p s q' tags) ∧
    (∀ (uid : String) (p : Phase) (s : ℚ) (q : String)
        (tags tags' : List String),
      String.intercalate "," (sortStable strLe tags) ≠
        String.intercalate "," (sortStable strLe tags') →
      buildFingerprintScience uid p s q tags ≠
        buildFingerprintScience uid p s q tags') :=
  ⟨buildFingerprint_congr, buildFingerprint_score_ne,
   buildFingerprint_summary_ne, buildFingerprint_tags_ne,
   buildFingerprint_quote_ne, buildFingerprintScience_congr,
   buildFingerprintScience_score_ne, buildFingerprintScience_quote_ne,
   buildFingerprintScience_tags_ne⟩

/-- Witness for C3 amended: concrete single-component changes at the
normalized level each change the fingerprint. -/
theorem c3_fingerprint_sensitivity_amended_witness :
    buildFingerprint "u" Phase.before 1 "s" [] "q" ≠
      buildFingerprint "u" Phase.before 2 "s" [] "q" ∧
    buildFingerprint "u" Phase.before 1 "s" [] "q" ≠
      buildFingerprint "u" Phase.before 1 "t" [] "q" ∧
    buildFingerprint "u" Phase.before 1 "s" ["x"] "q" ≠
      buildFingerprint "u" Phase.before 1 "s" ["y"] "q" ∧
    buildFingerprint "u" Phase.before 1 "s" [] "q" ≠
      buildFingerprint "u" Phase.before 1 "s" [] "r" ∧
    buildFingerprintScience "u" Phase.before 1 "q" [] ≠
      buildFingerprintScience "u" Phase.before 2 "q" [] :=
  ⟨c3_fingerprint_sensitivity_amended.2.1 "u" Phase.before 1 2 "s" [] "q"
      (by decide),
   c3_fingerprint_sensitivity_amended.2.2.1 "u" Phase.before 1 "s" "t" [] "q"
      (by decide),
   c3_fingerprint_sensitivity_amended.2.2.2.1 "u" Phase.before 1 "s"
      ["x"] ["y"] "q" (by decide),
   c3_fingerprint_sensitivity_amended.2.2.2.2.1 "u" Phase.before 1 "s" []
      "q" "r" (by decide),
   c3_fingerprint_sensitivity_amended.2.2.2.2.2.2.1 "u" Phase.before 1 2
      "q" [] (by decide)⟩

/-! ### C8 -/

/-- C8, counterexample: the flat paragraph score weights anchor hits by
`1.5`, not by the article scorer's anchor weight (`0.8` for the
republic script, `0.85` for the science script).  The paragraph
`"republic"` has zero group hits and one anchor hit, and scores `1.5`,
not `0.8` and not `0.85`. -/
theorem c8_paragraph_weight_counterexample :
    paragraphScore republicTrack Phase.before "republic" = 3/2 ∧
    ((computeGroupHits republicTrack Phase.before
        (normalize "republic")).map Prod.snd).sum = 0 ∧
    countOccurrences (normalize "republic") republicTrack.anchors = 1 ∧
    paragraphScore republicTrack Phase.before "republic" ≠
      0 + 1 * republicTrack.anchorWeight ∧
    paragraphScore republicTrack Phase.before "republic" ≠
      0 + 1 * scienceTrack.anchorWeight := by
  refine ⟨by decide, by decide, by decide, by decide, by decide⟩

/-- C8 amended: in both scripts, a surviving paragraph's score is the
flat (unweighted, uncapped) sum of the phase's per-group probe hits —
the same per-group counts the article scorer weights positionally —
plus `anchor_hits × 1.5`, where `1.5` is a constant distinct from the
article scorer's anchor weight (`0.8` republic / `0.85` science). -/
theorem c8_paragraph_score_amended :
    (∀ (tr : Track) (phase : Phase) (p : String),
      paragraphScore tr phase p =
        ((((tr.keywords phase).map
            (fun g => countOccurrences (normalize p) g.2)).sum : ℕ) : ℚ) +
          (countOccurrences (normalize p) tr.anchors : ℚ) * (3/2)) ∧
    republicTrack.anchorWeight = 8/10 ∧
    scienceTrack.anchorWeight = 85/100 ∧
    (3/2 : ℚ) ≠ republicTrack.anchorWeight ∧
    (3/2 : ℚ) ≠ scienceTrack.anchorWeight := by
  refine ⟨?_, by decide, by decide, by decide, by decide⟩
  intro tr phase p
  simp only [paragraphScore, computeGroupHits, List.map_map]
  rfl

/-! ### C2 -/

/-- Overlapping-occurrence count of `nd` in `hay` (the number of
positions where `nd` starts), used to state the example scenario's
"body contains 3 occurrences of a G1 probe" hypothesis.  The pipeline
itself never counts occurrences — `count_occurrences` counts *probes
that occur*, which is what the counterexample exhibits. -/
def countOccAt (nd : List Char) : List Char → Nat
  | [] => 0
  | c :: t => (if nd.isPrefixOf (c :: t) then 1 else 0) + countOccAt nd t

def countSubstrOcc (hay nd : String) : Nat :=
  countOccAt nd.data hay.data

/-- C2, counterexample: an article in phase `before` instantiating the
spec's example scenario — title `"nehru"` holds exactly 1 probe of
`institutional_grammar` (G1), the summary is empty, the body holds 3
occurrences of the single G1 probe `"nehru"` plus the 2 anchor terms
`"republic"` and `"majoritarian"`, and there is no tag-signal overlap.
The code's `count_occurrences` counts each probe at most once, so
`group_hits[G1] = 4×1 + 2×0 + min(1,6) = 5` (not 7) and
`relevance_score = 5 + 2×0.8 = 6.6` (not 8.6). -/
theorem c2_score_counterexample :
    countSubstrOcc
      (normalize "nehru nehru nehru republic majoritarian") "nehru" = 3 ∧
    (scoreArticle republicTrack Phase.before "nehru" "" []
        "nehru nehru nehru republic majoritarian").anchorHits = 2 ∧
    (scoreArticle republicTrack Phase.before "nehru" "" []
        "nehru nehru nehru republic majoritarian").groupHits =
      [("institutional_grammar", 5), ("decay_diagnostics", 0),
       ("democratic_urgency", 0)] ∧
    (scoreArticle republicTrack Phase.before "nehru" "" []
        "nehru nehru nehru republic majoritarian").total = 33/5 ∧
    (scoreArticle republicTrack Phase.before "nehru" "" []
        "nehru nehru nehru republic majoritarian").total ≠ 43/5 ∧
    ("institutional_grammar", 7) ∉
      (scoreArticle republicTrack Phase.before "nehru" "" []
        "nehru nehru nehru republic majoritarian").groupHits := by
  refine ⟨by decide, by decide, by decide, by decide, by decide, by decide⟩

/-- C2 amended: each group's weighted hit count is
`title_hits × 4 + summary_hits × 2 + min(body_hits, body_cap)` where
`title_hits`/`summary_hits`/`body_hits` count *which* of the group's
probes occur in the normalized field (one per probe, not one per
occurrence); on the scenario article the lead group scores 5, the
relevance score is `5 + 2×0.8 = 6.6`, and with `min_score = 14` the
candidate is not included. -/
theorem c2_weighted_group_hits_amended :
    (∀ (tr : Track) (phase : Phase) (title summary : String)
        (tags : List String) (body : String) (g : String)
        (probes : List String),
      (g, probes) ∈ tr.keywords phase →
      (g, 4 * countOccurrences (normalize title) probes +
          2 * countOccurrences (normalize summary) probes +
          min (countOccurrences (normalize body) probes) tr.bodyCap) ∈
        (scoreArticle tr phase title summary tags body).groupHits) ∧
    (scoreArticle republicTrack Phase.before "nehru" "" []
        "nehru nehru nehru republic majoritarian").total = 33/5 ∧
    candidateInclude 14 3 2
      (scoreArticle republicTrack Phase.before "nehru" "" []
        "nehru nehru nehru republic majoritarian") = false := by
  refine ⟨?_, by decide, by decide⟩
  intro tr phase title summary tags body g probes hmem
  exact List.mem_map_of_mem
    (fun gp => (gp.1, 4 * countOccurrences (normalize title) gp.2 +
      2 * countOccurrences (normalize summary) gp.2 +
      min (countOccurrences (normalize body) gp.2) tr.bodyCap)) hmem

/-- Witness for C2 amended: the general weighted-hit formula applied to
the scenario article's lead group. -/
theorem c2_weighted_group_hits_amended_witness :
    (("institutional_grammar", 5) : String × Nat) ∈
      (scoreArticle republicTrack Phase.before "nehru" "" []
        "nehru nehru nehru republic majoritarian").groupHits := by
  have h := c2_weighted_group_hits_amended.1 republicTrack Phase.before
    "nehru" "" [] "nehru nehru nehru republic majoritarian"
    "institutional_grammar"
    ["constitution", "constitutional", "institution", "nehru", "state",
     "citizenship", "citizen", "left and right", "secularism", "university"]
    (by decide)
  have he : 4 * countOccurrences (normalize "nehru")
        ["constitution", "constitutional", "institution", "nehru", "state",
         "citizenship", "citizen", "left and right", "secularism",
         "university"] +
      2 * countOccurrences (normalize "")
        ["constitution", "constitutional", "institution", "nehru", "state",
         "citizenship", "citizen", "left and right", "secularism",
         "university"] +
      min (countOccurrences
          (normalize "nehru nehru nehru republic majoritarian")
          ["constitution", "constitutional", "institution", "nehru", "state",
           "citizenship", "citizen", "left and right", "secularism",
           "university"]) republicTrack.bodyCap = 5 := by decide
  rwa [he] at h

/-! ### C4 -/

theorem critKeyLe_total (a b : CritRow) :
    critKeyLe a b = true ∨ critKeyLe b a = true := by
  unfold critKeyLe
  by_cases h : a.score = b.score
  · rw [if_pos h, if_pos h.symm]
    exact strLe_total _ _
  · rw [if_neg h, if_neg (fun e => h e.symm)]
    rcases lt_trichotomy a.score b.score with h' | h' | h'
    · right; simpa [decide_eq_true_eq] using h'
    · exact absurd h' h
    · left; simpa [decide_eq_true_eq] using h'

theorem critKeyLe_trans (a b c : CritRow) :
    critKeyLe a b = true → critKeyLe b c = true → critKeyLe a c = true := by
  unfold critKeyLe
  by_cases hab : a.score = b.score <;> by_cases hbc : b.score = c.score
  · rw [if_pos hab, if_pos hbc, if_pos (hab.trans hbc)]
    exact strLe_trans _ _ _
  · rw [if_pos hab, if_neg hbc,
      if_neg (show a.score ≠ c.score from hab ▸ hbc)]
    intro _ h2
    simp only [decide_eq_true_eq] at h2 ⊢
    rw [hab]
    exact h2
  · rw [if_neg hab, if_pos hbc,
      if_neg (show a.score ≠ c.score from fun e => hab (e.trans hbc.symm))]
    intro h1 _
    simp only [decide_eq_true_eq] at h1 ⊢
    rw [← hbc]
    exact h1
  · rw [if_neg hab, if_neg hbc]
    intro h1 h2
    simp only [decide_eq_true_eq] at h1 h2
    have h3 : c.score < a.score := h2.trans h1
    rw [if_neg (fun e : a.score = c.score => absurd (e ▸ h3) (lt_irrefl _))]
    simpa [decide_eq_true_eq] using h3

/-- C4, counterexample: the cited selections sort eligible candidates by
`(-score, published_date)` only; ties beyond that keep the input order
(Python's sort is stable), not title order.  With two phase-`after`
candidates tying on score `20.0` and date `2023-01-01`, input order
`["zebra" (uid A), "apple" (uid B)]` and `max_per_phase = 1`, the code
selects uid `A` while the claimed `(-score, date, title)` ordering would
select uid `B` (`"apple" < "zebra"`). -/
theorem c4_title_tiebreak_counterexample :
    (critPhasePicks
        [⟨"A", Phase.after, 20, "2023-01-01", "zebra", true⟩,
         ⟨"B", Phase.after, 20, "2023-01-01", "apple", true⟩] 1
        Phase.after).map (·.article_uid) = ["A"] ∧
    (specPhasePicks
        [⟨"A", Phase.after, 20, "2023-01-01", "zebra", true⟩,
         ⟨"B", Phase.after, 20, "2023-01-01", "apple", true⟩] 1
        Phase.after).map (·.article_uid) = ["B"] ∧
    (["A"] : List String) ≠ ["B"] := by
  refine ⟨by decide, by decide, by decide⟩

/-- C4 amended: the cited scripts sort each phase's eligible candidates
by `(-relevance_score, published_date ascending)` with *no* title
tie-break — remaining ties keep the deterministic input order (stable
sort).  The sorted list is pairwise ordered under that key and is a
permutation of the eligible candidates, and the spec's date example
holds: of two `after` candidates both scoring 20.0, published 2023-01-01
and 2022-06-01, with `max_per_phase = 1`, the 2022-06-01 article is
selected; in the packet assembler the capped-out passer is classified
`below_phase_cap`. -/
theorem c4_ordering_amended :
    (∀ (cands : List CritRow) (p : Phase),
      (sortStable critKeyLe
          (cands.filter (fun r => r.phase = p && r.includeFlag))).Pairwise
        (fun a b => critKeyLe a b = true)) ∧
    (∀ (cands : List CritRow) (p : Phase),
      List.Perm
        (sortStable critKeyLe
          (cands.filter (fun r => r.phase = p && r.includeFlag)))
        (cands.filter (fun r => r.phase = p && r.includeFlag))) ∧
    (critPhasePicks
        [⟨"C", Phase.after, 20, "2023-01-01", "t1", true⟩,
         ⟨"D", Phase.after, 20, "2022-06-01", "t2", true⟩] 1
        Phase.after).map (·.article_uid) = ["D"] ∧
    rowSelected
      [⟨"D", Phase.after, "2022-06-01", "t2", 20, true, "full", "ok"⟩,
       ⟨"C", Phase.after, "2023-01-01", "t1", 20, true, "full",
        "Excluded due to per-phase cap despite passing score threshold. x"⟩]
      1 true true
      ⟨"D", Phase.after, "2022-06-01", "t2", 20, true, "full", "ok"⟩ = true ∧
    selectionReasonFor
      [⟨"D", Phase.after, "2022-06-01", "t2", 20, true, "full", "ok"⟩,
       ⟨"C", Phase.after, "2023-01-01", "t1", 20, true, "full",
        "Excluded due to per-phase cap despite passing score threshold. x"⟩]
      1 true true
      ⟨"C", Phase.after, "2023-01-01", "t1", 20, true, "full",
        "Excluded due to per-phase cap despite passing score threshold. x"⟩ =
      "below_phase_cap" := by
  refine ⟨?_, ?_, by decide, by decide, by decide⟩
  · intro cands p
    exact sortStable_pairwise critKeyLe critKeyLe_total critKeyLe_trans _
  · intro cands p
    exact sortStable_perm critKeyLe _

/-! ### C5 -/

theorem contains_true_mem {l : List String} {a : String}
    (h : l.contains a = true) : a ∈ l := by
  rcases List.contains_iff_exists_mem_beq.mp h with ⟨b, hb, he⟩
  rcases eq_of_beq he with rfl
  exact hb

/-- The picks never exceed the cap: the primary slice takes at most
`cap`, and the backfill loop stops as soon as the cap is reached. -/
theorem picksFor_length_le (cands : List PacketRow) (cap : Nat)
    (ftOnly backfill : Bool) (p : Phase) :
    (picksFor cands cap ftOnly backfill p).length ≤ cap := by
  simp only [picksFor]
  split
  · simp only [List.length_append, List.length_take]
    omega
  · simp only [List.length_take]
    omega

/-- C5: for every candidate set with distinct `article_uid`s, every cap
and every setting of the `full_text_only` and `backfill` flags, the
selection marks at most `max_per_phase` records per phase:
`count(selected where phase = p) ≤ max_per_phase`, with or without
backfill extension. -/
theorem c5_phase_cap_invariant (cands : List PacketRow) (cap : Nat)
    (ftOnly backfill : Bool)
    (h : (cands.map (·.article_uid)).Nodup) (p : Phase) :
    ((selectedRecords cands cap ftOnly backfill).filter
      (fun r => r.phase = p)).length ≤ cap := by
  set sel := (selectedRecords cands cap ftOnly backfill).filter
    (fun r => decide (r.phase = p)) with hsel
  have hsub : List.Sublist sel cands := by
    rw [hsel]
    exact (List.filter_sublist _).trans (List.filter_sublist _)
  have hnd : (sel.map (·.article_uid)).Nodup :=
    (hsub.map (·.article_uid)).nodup h
  have hss : sel.map (·.article_uid) ⊆
      selectedUidsFor cands cap ftOnly backfill p := by
    intro u hu
    rcases List.mem_map.mp hu with ⟨r, hr, rfl⟩
    rw [hsel] at hr
    have hr1 := List.mem_filter.mp hr
    have hr2 := List.mem_filter.mp hr1.1
    have hphase : r.phase = p := by
      have := hr1.2
      simpa using this
    have hsel' : rowSelected cands cap ftOnly backfill r = true := by
      simpa using hr2.2
    unfold rowSelected at hsel'
    rw [hphase] at hsel'
    exact contains_true_mem hsel'
  have hle : (sel.map (·.article_uid)).length ≤
      (selectedUidsFor cands cap ftOnly backfill p).length :=
    (List.subperm_of_subset hnd hss).length_le
  have hcap : (selectedUidsFor cands cap ftOnly backfill p).length ≤ cap := by
    unfold selectedUidsFor
    rw [List.length_map]
    exact picksFor_length_le cands cap ftOnly backfill p
  calc sel.length = (sel.map (·.article_uid)).length :=
        (List.length_map _ _).symm
    _ ≤ _ := hle
    _ ≤ cap := hcap

/-- Witness for C5 at a concrete candidate set. -/
theorem c5_phase_cap_invariant_witness :
    ((selectedRecords
        [⟨"u1", Phase.before, "2020-01-01", "t1", 20, true, "full", "r"⟩,
         ⟨"u2", Phase.before, "2020-02-01", "t2", 19, true, "full", "r"⟩]
        1 true true).filter (fun r => r.phase = Phase.before)).length ≤ 1 :=
  c5_phase_cap_invariant
    [⟨"u1", Phase.before, "2020-01-01", "t1", 20, true, "full", "r"⟩,
     ⟨"u2", Phase.before, "2020-02-01", "t2", 19, true, "full", "r"⟩]
    1 true true (by decide) Phase.before

/-! ### C6 -/

/-- C6: when fewer than `max_per_phase` candidates pass the raw
thresholds and backfill is enabled, the phase's picks are exactly the
sorted threshold passers extended from the remaining (full-text-gated,
not already picked) candidates of that phase in the same
`(-score, date, title)` order, until the cap is reached or the pool is
exhausted; every selected row's reason is `passed_threshold` when it
passed the thresholds and `backfill_to_phase_cap` otherwise.  In the
concrete scenario (`max_per_phase = 5`, 2 passers, backfill on, 10
phase candidates) exactly 5 are selected: the 2 passers plus the 3
next-highest-scoring backfills. -/
theorem c6_backfill_extension :
    (∀ (cands : List PacketRow) (cap : Nat) (ftOnly : Bool) (p : Phase),
      (eligibleRows cands p ftOnly).length < cap →
      picksFor cands cap ftOnly true p =
        sortStable packetKeyLe (eligibleRows cands p ftOnly) ++
          (fallbackPool cands p ftOnly
            ((sortStable packetKeyLe (eligibleRows cands p ftOnly)).map
              (·.article_uid))).take
            (cap - (eligibleRows cands p ftOnly).length)) ∧
    (∀ (cands : List PacketRow) (cap : Nat) (ftOnly : Bool) (p : Phase),
      (eligibleRows cands p ftOnly).length < cap →
      (picksFor cands cap ftOnly true p).length =
        (eligibleRows cands p ftOnly).length +
          min (cap - (eligibleRows cands p ftOnly).length)
            ((fallbackPool cands p ftOnly
              ((sortStable packetKeyLe (eligibleRows cands p ftOnly)).map
                (·.article_uid))).length)) ∧
    (∀ (cands : List PacketRow) (cap : Nat) (ftOnly backfill : Bool)
        (row : PacketRow),
      rowSelected cands cap ftOnly backfill row = true →
      selectionReasonFor cands cap ftOnly backfill row =
        if row.candidate_include then "passed_threshold"
        else "backfill_to_phase_cap") ∧
    ((selectedRecords
        [⟨"u1", Phase.before, "2020-01-01", "t", 20, true, "full", "r"⟩,
         ⟨"u2", Phase.before, "2020-02-01", "t", 19, true, "full", "r"⟩,
         ⟨"u3", Phase.before, "2020-03-01", "t", 12, false, "full", "r"⟩,
         ⟨"u4", Phase.before, "2020-04-01", "t", 11, false, "full", "r"⟩,
         ⟨"u5", Phase.before, "2020-05-01", "t", 10, false, "full", "r"⟩,
         ⟨"u6", Phase.before, "2020-06-01", "t", 9, false, "full", "r"⟩,
         ⟨"u7", Phase.before, "2020-07-01", "t", 8, false, "full", "r"⟩,
         ⟨"u8", Phase.before, "2020-08-01", "t", 7, false, "full", "r"⟩,
         ⟨"u9", Phase.before, "2020-09-01", "t", 6, false, "full", "r"⟩,
         ⟨"v1", Phase.before, "2020-10-01", "t", 5, false, "full", "r"⟩]
        5 true true).map (·.article_uid) =
      ["u1", "u2", "u3", "u4", "u5"]) ∧
    (selectionReasonFor
        [⟨"u1", Phase.before, "2020-01-01", "t", 20, true, "full", "r"⟩,
         ⟨"u2", Phase.before, "2020-02-01", "t", 19, true, "full", "r"⟩,
         ⟨"u3", Phase.before, "2020-03-01", "t", 12, false, "full", "r"⟩,
         ⟨"u4", Phase.before, "2020-04-01", "t", 11, false, "full", "r"⟩,
         ⟨"u5", Phase.before, "2020-05-01", "t", 10, false, "full", "r"⟩,
         ⟨"u6", Phase.before, "2020-06-01", "t", 9, false, "full", "r"⟩,
         ⟨"u7", Phase.before, "2020-07-01", "t", 8, false, "full", "r"⟩,
         ⟨"u8", Phase.before, "2020-08-01", "t", 7, false, "full", "r"⟩,
         ⟨"u9", Phase.before, "2020-09-01", "t", 6, false, "full", "r"⟩,
         ⟨"v1", Phase.before, "2020-10-01", "t", 5, false, "full", "r"⟩]
        5 true true
        ⟨"u2", Phase.before, "2020-02-01", "t", 19, true, "full", "r"⟩ =
        "passed_threshold" ∧
      selectionReasonFor
        [⟨"u1", Phase.before, "2020-01-01", "t", 20, true, "full", "r"⟩,
         ⟨"u2", Phase.before, "2020-02-01", "t", 19, true, "full", "r"⟩,
         ⟨"u3", Phase.before, "2020-03-01", "t", 12, false, "full", "r"⟩,
         ⟨"u4", Phase.before, "2020-04-01", "t", 11, false, "full", "r"⟩,
         ⟨"u5", Phase.before, "2020-05-01", "t", 10, false, "full", "r"⟩,
         ⟨"u6", Phase.before, "2020-06-01", "t", 9, false, "full", "r"⟩,
         ⟨"u7", Phase.before, "2020-07-01", "t", 8, false, "full", "r"⟩,
         ⟨"u8", Phase.before, "2020-08-01", "t", 7, false, "full", "r"⟩,
         ⟨"u9", Phase.before, "2020-09-01", "t", 6, false, "full", "r"⟩,
         ⟨"v1", Phase.before, "2020-10-01", "t", 5, false, "full", "r"⟩]
        5 true true
        ⟨"u5", Phase.before, "2020-05-01", "t", 10, false, "full", "r"⟩ =
        "backfill_to_phase_cap") := by
  have hlen : ∀ (cands : List PacketRow) (cap : Nat) (ftOnly : Bool)
      (p : Phase),
      (sortStable packetKeyLe (eligibleRows cands p ftOnly)).length =
        (eligibleRows cands p ftOnly).length :=
    fun cands cap ftOnly p => (sortStable_perm packetKeyLe _).length_eq
  have main : ∀ (cands : List PacketRow) (cap : Nat) (ftOnly : Bool)
      (p : Phase),
      (eligibleRows cands p ftOnly).length < cap →
      picksFor cands cap ftOnly true p =
        sortStable packetKeyLe (eligibleRows cands p ftOnly) ++
          (fallbackPool cands p ftOnly
            ((sortStable packetKeyLe (eligibleRows cands p ftOnly)).map
              (·.article_uid))).take
            (cap - (eligibleRows cands p ftOnly).length) := by
    intro cands cap ftOnly p hlt
    have hle : (sortStable packetKeyLe (eligibleRows cands p ftOnly)).length
        ≤ cap := by
      rw [hlen cands cap ftOnly p]
      omega
    simp only [picksFor, List.take_of_length_le hle]
    rw [if_pos ⟨trivial, by rw [hlen cands cap ftOnly p]; omega⟩,
      hlen cands cap ftOnly p]
  refine ⟨main, ?_, ?_, by decide, by decide, by decide⟩
  · intro cands cap ftOnly p hlt
    rw [main cands cap ftOnly p hlt]
    simp only [List.length_append, List.length_take]
    rw [hlen cands cap ftOnly p]
  · intro cands cap ftOnly backfill row hrow
    simp [selectionReasonFor, hrow]

/-- Witness for C6: the backfill-extension equation and the reason
assignment instantiated on the 10-candidate scenario. -/
theorem c6_backfill_extension_witness :
    picksFor
        [⟨"u1", Phase.before, "2020-01-01", "t", 20, true, "full", "r"⟩,
         ⟨"u2", Phase.before, "2020-02-01", "t", 19, true, "full", "r"⟩,
         ⟨"u3", Phase.before, "2020-03-01", "t", 12, false, "full", "r"⟩,
         ⟨"u4", Phase.before, "2020-04-01", "t", 11, false, "full", "r"⟩,
         ⟨"u5", Phase.before, "2020-05-01", "t", 10, false, "full", "r"⟩,
         ⟨"u6", Phase.before, "2020-06-01", "t", 9, false, "full", "r"⟩,
         ⟨"u7", Phase.before, "2020-07-01", "t", 8, false, "full", "r"⟩,
         ⟨"u8", Phase.before, "2020-08-01", "t", 7, false, "full", "r"⟩,
         ⟨"u9", Phase.before, "2020-09-01", "t", 6, false, "full", "r"⟩,
         ⟨"v1", Phase.before, "2020-10-01", "t", 5, false, "full", "r"⟩]
        5 true true Phase.before =
      sortStable packetKeyLe
        (eligibleRows
          [⟨"u1", Phase.before, "2020-01-01", "t", 20, true, "full", "r"⟩,
           ⟨"u2", Phase.before, "2020-02-01", "t", 19, true, "full", "r"⟩,
           ⟨"u3", Phase.before, "2020-03-01", "t", 12, false, "full", "r"⟩,
           ⟨"u4", Phase.before, "2020-04-01", "t", 11, false, "full", "r"⟩,
           ⟨"u5", Phase.before, "2020-05-01", "t", 10, false, "full", "r"⟩,
           ⟨"u6", Phase.before, "2020-06-01", "t", 9, false, "full", "r"⟩,
           ⟨"u7", Phase.before, "2020-07-01", "t", 8, false, "full", "r"⟩,
           ⟨"u8", Phase.before, "2020-08-01", "t", 7, false, "full", "r"⟩,
           ⟨"u9", Phase.before, "2020-09-01", "t", 6, false, "full", "r"⟩,
           ⟨"v1", Phase.before, "2020-10-01", "t", 5, false, "full", "r"⟩]
          Phase.before true) ++
        (fallbackPool
          [⟨"u1", Phase.before, "2020-01-01", "t", 20, true, "full", "r"⟩,
           ⟨"u2", Phase.before, "2020-02-01", "t", 19, true, "full", "r"⟩,
           ⟨"u3", Phase.before, "2020-03-01", "t", 12, false, "full", "r"⟩,
           ⟨"u4", Phase.before, "2020-04-01", "t", 11, false, "full", "r"⟩,
           ⟨"u5", Phase.before, "2020-05-01", "t", 10, false, "full", "r"⟩,
           ⟨"u6", Phase.before, "2020-06-01", "t", 9, false, "full", "r"⟩,
           ⟨"u7", Phase.before, "2020-07-01", "t", 8, false, "full", "r"⟩,
           ⟨"u8", Phase.before, "2020-08-01", "t", 7, false, "full", "r"⟩,
           ⟨"u9", Phase.before, "2020-09-01", "t", 6, false, "full", "r"⟩,
           ⟨"v1", Phase.before, "2020-10-01", "t", 5, false, "full", "r"⟩]
          Phase.before true
          ((sortStable packetKeyLe
            (eligibleRows
              [⟨"u1", Phase.before, "2020-01-01", "t", 20, true, "full", "r"⟩,
               ⟨"u2", Phase.before, "2020-02-01", "t", 19, true, "full", "r"⟩,
               ⟨"u3", Phase.before, "2020-03-01", "t", 12, false, "full", "r"⟩,
               ⟨"u4", Phase.before, "2020-04-01", "t", 11, false, "full", "r"⟩,
               ⟨"u5", Phase.before, "2020-05-01", "t", 10, false, "full", "r"⟩,
               ⟨"u6", Phase.before, "2020-06-01", "t", 9, false, "full", "r"⟩,
               ⟨"u7", Phase.before, "2020-07-01", "t", 8, false, "full", "r"⟩,
               ⟨"u8", Phase.before, "2020-08-01", "t", 7, false, "full", "r"⟩,
               ⟨"u9", Phase.before, "2020-09-01", "t", 6, false, "full", "r"⟩,
               ⟨"v1", Phase.before, "2020-10-01", "t", 5, false, "full", "r"⟩]
              Phase.before true)).map (·.article_uid))).take 3 := by
  have h := c6_backfill_extension.1
    [⟨"u1", Phase.before, "2020-01-01", "t", 20, true, "full", "r"⟩,
     ⟨"u2", Phase.before, "2020-02-01", "t", 19, true, "full", "r"⟩,
     ⟨"u3", Phase.before, "2020-03-01", "t", 12, false, "full", "r"⟩,
     ⟨"u4", Phase.before, "2020-04-01", "t", 11, false, "full", "r"⟩,
     ⟨"u5", Phase.before, "2020-05-01", "t", 10, false, "full", "r"⟩,
     ⟨"u6", Phase.before, "2020-06-01", "t", 9, false, "full", "r"⟩,
     ⟨"u7", Phase.before, "2020-07-01", "t", 8, false, "full", "r"⟩,
     ⟨"u8", Phase.before, "2020-08-01", "t", 7, false, "full", "r"⟩,
     ⟨"u9", Phase.before, "2020-09-01", "t", 6, false, "full", "r"⟩,
     ⟨"v1", Phase.before, "2020-10-01", "t", 5, false, "full", "r"⟩]
    5 true Phase.before (by decide)
  have he : (eligibleRows
      [⟨"u1", Phase.before, "2020-01-01", "t", 20, true, "full", "r"⟩,
       ⟨"u2", Phase.before, "2020-02-01", "t", 19, true, "full", "r"⟩,
       ⟨"u3", Phase.before, "2020-03-01", "t", 12, false, "full", "r"⟩,
       ⟨"u4", Phase.before, "2020-04-01", "t", 11, false, "full", "r"⟩,
       ⟨"u5", Phase.before, "2020-05-01", "t", 10, false, "full", "r"⟩,
       ⟨"u6", Phase.before, "2020-06-01", "t", 9, false, "full", "r"⟩,
       ⟨"u7", Phase.before, "2020-07-01", "t", 8, false, "full", "r"⟩,
       ⟨"u8", Phase.before, "2020-08-01", "t", 7, false, "full", "r"⟩,
       ⟨"u9", Phase.before, "2020-09-01", "t", 6, false, "full", "r"⟩,
       ⟨"v1", Phase.before, "2020-10-01", "t", 5, false, "full", "r"⟩]
      Phase.before true).length = 2 := by decide
  rw [he] at h
  exact h

/-! ### C7 -/

/-- A body of 32 copies of a 19-character sentence: one clean paragraph
of 607 characters, above the 520-character quote budget. -/
def c7body : String := String.join (List.replicate 32 "republic is alive. ")

/-- C7, counterexample: when the best body paragraph exceeds 520
characters, the quote selector returns its sentence-boundary
truncation, not the paragraph itself: on `c7body` the single qualifying
paragraph has 607 characters and positive score, the source is
`body_paragraph`, but the returned quote is the 512-character
truncation, not the paragraph. -/
theorem c7_truncation_counterexample :
    splitParagraphs republicTrack c7body = [cleanText c7body] ∧
    paragraphScore republicTrack Phase.before (cleanText c7body) > 0 ∧
    (chooseQuote republicTrack Phase.before c7body "" "T").source =
      "body_paragraph" ∧
    (chooseQuote republicTrack Phase.before c7body "" "T").text ≠
      cleanText c7body ∧
    (cleanText c7body).length = 607 ∧
    (chooseQuote republicTrack Phase.before c7body "" "T").text.length =
      512 := by
  refine ⟨by decide, by decide, by decide, by decide, by decide, by decide⟩

/-- C7 amended: when some qualifying body paragraph scores above 0 the
quote selector returns the highest-scoring qualifying paragraph —
truncated by `shorten_quote` to the 520-character sentence-boundary
budget, hence verbatim whenever it fits the budget — with
`quote_source = body_paragraph` and `quote_confidence =
min(1.0, 0.45 + best_paragraph_score/20)`; otherwise it falls back to
the first sentence of the summary with confidence 0.42, and if the
summary normalises to empty, to the whitespace-trimmed title with
confidence 0.25. -/
theorem c7_quote_selector_amended :
    (∀ (tr : Track) (phase : Phase) (body summary title : String),
      (∃ q ∈ splitParagraphs tr body, paragraphScore tr phase q > 0) →
      ∃ best ∈ splitParagraphs tr body,
        (∀ q ∈ splitParagraphs tr body,
          paragraphScore tr phase q ≤ paragraphScore tr phase best) ∧
        chooseQuote tr phase body summary title =
          ⟨shortenQuote best, "body_paragraph",
            min 1 ((45/100) + paragraphScore tr phase best / 20)⟩) ∧
    (∀ (tr : Track) (phase : Phase) (body summary title : String),
      (∀ q ∈ splitParagraphs tr body, paragraphScore tr phase q ≤ 0) →
      firstSentence summary ≠ "" →
      chooseQuote tr phase body summary title =
        ⟨firstSentence summary, "summary_sentence", 42/100⟩) ∧
    (∀ (tr : Track) (phase : Phase) (body summary title : String),
      (∀ q ∈ splitParagraphs tr body, paragraphScore tr phase q ≤ 0) →
      firstSentence summary = "" →
      chooseQuote tr phase body summary title =
        ⟨⟨stripWsChars title.data⟩, "title", 25/100⟩) ∧
    (∀ p : String, p.data.length ≤ 520 → cleanChars p.data = p.data →
      shortenQuote p = p) := by
  have htot : ∀ (tr : Track) (phase : Phase) (a b : String),
      decide (paragraphScore tr phase a ≥ paragraphScore tr phase b) = true ∨
      decide (paragraphScore tr phase b ≥ paragraphScore tr phase a) = true := by
    intro tr phase a b
    rcases le_total (paragraphScore tr phase b) (paragraphScore tr phase a)
      with h | h
    · left; simpa [decide_eq_true_eq] using h
    · right; simpa [decide_eq_true_eq] using h
  have htrans : ∀ (tr : Track) (phase : Phase) (a b c : String),
      decide (paragraphScore tr phase a ≥ paragraphScore tr phase b) = true →
      decide (paragraphScore tr phase b ≥ paragraphScore tr phase c) = true →
      decide (paragraphScore tr phase a ≥ paragraphScore tr phase c) = true := by
    intro tr phase a b c h1 h2
    simp only [decide_eq_true_eq] at h1 h2 ⊢
    exact le_trans h2 h1
  refine ⟨?_, ?_, ?_, ?_⟩
  · intro tr phase body summary title hex
    obtain ⟨q0, hq0, hq0pos⟩ := hex
    cases hsort : sortStable
        (fun a b =>
          decide (paragraphScore tr phase a ≥ paragraphScore tr phase b))
        (splitParagraphs tr body) with
    | nil =>
      exfalso
      have := (sortStable_perm
        (fun a b =>
          decide (paragraphScore tr phase a ≥ paragraphScore tr phase b))
        (splitParagraphs tr body)).symm.mem_iff.mp hq0
      rw [hsort] at this
      cases this
    | cons best l' =>
      have hbestmem : best ∈ splitParagraphs tr body := by
        have : best ∈ sortStable
            (fun a b =>
              decide (paragraphScore tr phase a ≥ paragraphScore tr phase b))
            (splitParagraphs tr body) := by
          rw [hsort]; exact List.mem_cons_self _ _
        exact (sortStable_perm _ _).mem_iff.mp this
      have hmax : ∀ q ∈ splitParagraphs tr body,
          paragraphScore tr phase q ≤ paragraphScore tr phase best := by
        intro q hq
        rcases sortStable_head_max _ (htot tr phase) (htrans tr phase) best
          (splitParagraphs tr body) l' hsort q hq with h | h
        · subst h; exact le_refl _
        · simpa [decide_eq_true_eq] using h
      have hbestpos : paragraphScore tr phase best > 0 :=
        lt_of_lt_of_le hq0pos (hmax q0 hq0)
      refine ⟨best, hbestmem, hmax, ?_⟩
      simp only [chooseQuote, hsort]
      rw [if_pos hbestpos]
  · intro tr phase body summary title hall hs
    cases hsort : sortStable
        (fun a b =>
          decide (paragraphScore tr phase a ≥ paragraphScore tr phase b))
        (splitParagraphs tr body) with
    | nil =>
      simp only [chooseQuote, hsort]
      rw [if_pos hs]
    | cons best l' =>
      have hbestmem : best ∈ splitParagraphs tr body := by
        have : best ∈ sortStable
            (fun a b =>
              decide (paragraphScore tr phase a ≥ paragraphScore tr phase b))
            (splitParagraphs tr body) := by
          rw [hsort]; exact List.mem_cons_self _ _
        exact (sortStable_perm _ _).mem_iff.mp this
      simp only [chooseQuote, hsort]
      rw [if_neg (by simpa [not_lt] using hall best hbestmem), if_pos hs]
  · intro tr phase body summary title hall hs
    cases hsort : sortStable
        (fun a b =>
          decide (paragraphScore tr phase a ≥ paragraphScore tr phase b))
        (splitParagraphs tr body) with
    | nil =>
      simp only [chooseQuote, hsort]
      rw [if_neg (fun hne => hne hs)]
    | cons best l' =>
      have hbestmem : best ∈ splitParagraphs tr body := by
        have : best ∈ sortStable
            (fun a b =>
              decide (paragraphScore tr phase a ≥ paragraphScore tr phase b))
            (splitParagraphs tr body) := by
          rw [hsort]; exact List.mem_cons_self _ _
        exact (sortStable_perm _ _).mem_iff.mp this
      simp only [chooseQuote, hsort]
      rw [if_neg (by simpa [not_lt] using hall best hbestmem),
        if_neg (fun hne => hne hs)]
  · intro p h1 h2
    simp only [shortenQuote, h2]
    rw [if_pos h1]

/-- Witness for C7: the summary-sentence fallback on an article with no
body paragraphs. -/
theorem c7_quote_selector_amended_witness :
    chooseQuote republicTrack Phase.before "" "Hello world. More text." "T" =
      ⟨"Hello world.", "summary_sentence", 42/100⟩ := by
  have h := c7_quote_selector_amended.2.1 republicTrack Phase.before ""
    "Hello world. More text." "T" (by decide) (by decide)
  rw [h]
  decide

/-! ### C10 -/

/-- The six group names of the two republic keyword catalogs — the
"packet lead groups" (`LEAD_GROUPS` minus the `cross_currents`
fallback). -/
def sixLeadGroups : List String :=
  ["institutional_grammar", "decay_diagnostics", "democratic_urgency",
   "new_grammar", "embodied_ethics", "plural_futures"]

theorem digitsRev_bounds :
    ∀ (fuel n : Nat), ∀ c ∈ digitsRev fuel n,
      48 ≤ c.toNat ∧ c.toNat ≤ 57 := by
  intro fuel
  induction fuel with
  | zero => intro n c hc; cases hc
  | succ fuel ih =>
    intro n c hc
    simp only [digitsRev] at hc
    split at hc
    · next h =>
      rcases List.mem_singleton.mp hc with rfl
      interval_cases n <;> decide
    · next h =>
      rcases List.mem_cons.mp hc with rfl | hc
      · obtain ⟨m, hm, he⟩ : ∃ m, m < 10 ∧ n % 10 = m :=
          ⟨n % 10, Nat.mod_lt _ (by omega), rfl⟩
        rw [he]
        interval_cases m <;> decide
      · exact ih (n / 10) c hc

theorem natChars_no_underscore (n : Nat) : '_' ∉ natChars n := by
  intro h
  rw [natChars, List.mem_reverse] at h
  have hb := digitsRev_bounds (n + 1) n '_' h
  have h95 : ('_' : Char).toNat = 95 := by decide
  omega

theorem formatFixedNN_no_underscore (k : Nat) (q : ℚ) :
    '_' ∉ (formatFixedNN k q).data := by
  intro h
  simp only [formatFixedNN, natStr, String.data_append,
    List.mem_append] at h
  rcases h with (h | h) | (h | h)
  · exact natChars_no_underscore _ h
  · exact absurd h (by decide)
  · exact absurd (List.eq_of_mem_replicate h) (by decide)
  · exact natChars_no_underscore _ h

theorem formatFixed_no_underscore (k : Nat) (q : ℚ) :
    '_' ∉ (formatFixed k q).data := by
  intro h
  simp only [formatFixed] at h
  split at h
  · simp only [String.data_append, List.mem_append] at h
    rcases h with h | h
    · exact absurd h (by decide)
    · exact formatFixedNN_no_underscore k (-q) h
  · exact formatFixedNN_no_underscore k q h

theorem takeWhile_append_stop (p : Char → Bool) (l : List Char) (d : Char)
    (rest : List Char) (hall : ∀ c ∈ l, p c = true) (hd : p d = false) :
    (l ++ d :: rest).takeWhile p = l := by
  induction l with
  | nil => simp [List.takeWhile_cons, hd]
  | cons a t ih =>
    have ha := hall a (List.mem_cons_self a t)
    simp only [List.cons_append, List.takeWhile_cons, ha, if_true]
    rw [ih (fun c hc => hall c (List.mem_cons_of_mem a hc))]

/-- No occurrence of `lead_group=` can start inside an
underscore-free prefix: the pattern's fifth character is `'_'`, which
would have to land either in the prefix (impossible) or on one of the
pattern's first four characters `l`,`e`,`a`,`d` (impossible). -/
theorem findLeadGroupCapture_skip (pre X : List Char) (h : '_' ∉ pre) :
    findLeadGroupCapture (pre ++ (leadPat ++ X)) =
      findLeadGroupCapture (leadPat ++ X) := by
  induction pre with
  | nil => rfl
  | cons c pre' ih =>
    have hY : (c :: pre') ++ (leadPat ++ X) = c :: (pre' ++ (leadPat ++ X)) :=
      rfl
    have hnp : ¬ (leadPat.isPrefixOf ((c :: pre') ++ (leadPat ++ X)) = true) := by
      intro hpf
      obtain ⟨tt, htt⟩ := List.isPrefixOf_iff_prefix.mp hpf
      have h4 : ((c :: pre') ++ (leadPat ++ X))[4]? = some '_' := by
        rw [← htt,
          List.getElem?_append_left (by decide : (4 : Nat) < leadPat.length)]
        decide
      rcases Nat.lt_or_ge 4 (c :: pre').length with hlt | hge
      · rw [List.getElem?_append_left hlt] at h4
        exact h (List.getElem?_mem h4)
      · rw [List.getElem?_append_right hge] at h4
        have hk : 4 - (c :: pre').length ≤ 3 := by
          simp only [List.length_cons]
          omega
        obtain ⟨m, hm, he⟩ : ∃ m, m ≤ 3 ∧ 4 - (c :: pre').length = m :=
          ⟨_, hk, rfl⟩
        have h11 : leadPat.length = 11 := by decide
        rw [he, List.getElem?_append_left (by omega : m < leadPat.length)]
          at h4
        interval_cases m <;> exact absurd h4 (by decide)
    rw [hY]
    show findLeadGroupCapture (c :: (pre' ++ (leadPat ++ X))) = _
    simp only [findLeadGroupCapture]
    rw [if_neg (fun hand => hnp (hY ▸ hand.1))]
    exact ih (fun hm => h (List.mem_cons_of_mem c hm))

/-- At the pattern itself, the capture is the maximal `[a-z_]` run,
i.e. exactly the lead-group name when it is followed by `';'`. -/
theorem findLeadGroupCapture_at (lead rest : List Char)
    (hne : lead ≠ []) (hwc : ∀ c ∈ lead, isLgWord c = true) :
    findLeadGroupCapture (leadPat ++ (lead ++ (';' :: rest))) = some lead := by
  cases lead with
  | nil => exact absurd rfl hne
  | cons a l =>
    show findLeadGroupCapture
      ('l' :: (['e', 'a', 'd', '_', 'g', 'r', 'o', 'u', 'p', '='] ++
        ((a :: l) ++ (';' :: rest)))) = some (a :: l)
    simp only [findLeadGroupCapture]
    rw [if_pos ?_]
    · exact congrArg some
        (takeWhile_append_stop isLgWord (a :: l) ';' rest hwc (by decide))
    · constructor
      · exact List.isPrefixOf_iff_prefix.mpr ⟨(a :: l) ++ (';' :: rest), rfl⟩
      · exact hwc a (List.mem_cons_self a l)

/-- C10: for every phase, score, anchor count and non-empty group-hits
mapping whose names come from the six packet lead groups, the packet
assembler's `parse_lead_group` recovers from the rendered rationale
exactly the renderer's lead group — the first group under the stable
descending sort by hit count — and that group attains the maximal hit
count of the mapping. -/
theorem c10_rationale_lead_group_roundtrip (phase : Phase) (score : ℚ)
    (anchors : Nat) (gh : List (String × Nat)) (sel : Bool)
    (hnames : ∀ p ∈ gh, p.1 ∈ sixLeadGroups)
    (n₀ : String) (v₀ : Nat) (t : List (String × Nat))
    (hsort : sortStable (fun a b => decide (a.2 ≥ b.2)) gh = (n₀, v₀) :: t) :
    parseLeadGroup (buildRationale phase score anchors gh sel) = n₀ ∧
    (n₀, v₀) ∈ gh ∧ ∀ p ∈ gh, p.2 ≤ v₀ := by
  have htot : ∀ a b : String × Nat,
      decide (a.2 ≥ b.2) = true ∨ decide (b.2 ≥ a.2) = true := by
    intro a b
    rcases le_total a.2 b.2 with h | h
    · right; simpa [decide_eq_true_eq] using h
    · left; simpa [decide_eq_true_eq] using h
  have htrans : ∀ a b c : String × Nat,
      decide (a.2 ≥ b.2) = true → decide (b.2 ≥ c.2) = true →
      decide (a.2 ≥ c.2) = true := by
    intro a b c h1 h2
    simp only [decide_eq_true_eq, ge_iff_le] at h1 h2 ⊢
    exact le_trans h2 h1
  have hmem : (n₀, v₀) ∈ gh :=
    (sortStable_perm _ gh).mem_iff.mp (hsort ▸ List.mem_cons_self _ _)
  have hmax : ∀ p ∈ gh, p.2 ≤ v₀ := by
    intro p hp
    rcases sortStable_head_max _ htot htrans (n₀, v₀) gh t hsort p hp
      with h | h
    · rw [h]
    · simpa [decide_eq_true_eq, ge_iff_le] using h
  have hn6 : n₀ ∈ sixLeadGroups := hnames (n₀, v₀) hmem
  refine ⟨?_, hmem, hmax⟩
  have hbuild : buildRationale phase score anchors gh sel =
      decisionText sel ++ " Score=" ++ formatFixed 1 score ++ "; phase=" ++
        phase.str ++ "; anchors=" ++ natStr anchors ++ "; lead_group=" ++
        n₀ ++ "; group_hits=[" ++
        String.intercalate ", "
          (((n₀, v₀) :: t).map (fun p => p.1 ++ ":" ++ natStr p.2)) ++
        "]." := by
    simp only [buildRationale, hsort]
    rfl
  have hdata : (buildRationale phase score anchors gh sel).data =
      ((decisionText sel).data ++ (" Score=".data ++
        ((formatFixed 1 score).data ++ ("; phase=".data ++
        ((phase.str).data ++ ("; anchors=".data ++
        ((natStr anchors).data ++ [';', ' '])))))))
      ++ (leadPat ++ (n₀.data ++ (';' ::
        (' ' :: ("group_hits=[".data ++
          ((String.intercalate ", "
            (((n₀, v₀) :: t).map (fun p => p.1 ++ ":" ++ natStr p.2))).data ++
            "].".data)))))) := by
    rw [hbuild]
    simp only [String.data_append, List.append_assoc]
    rfl
  have hwc : ∀ c ∈ n₀.data, isLgWord c = true := by
    fin_cases hn6 <;> decide
  have hne : n₀.data ≠ [] := by
    fin_cases hn6 <;> decide
  have hpre : '_' ∉ ((decisionText sel).data ++ (" Score=".data ++
      ((formatFixed 1 score).data ++ ("; phase=".data ++
      ((phase.str).data ++ ("; anchors=".data ++
      ((natStr anchors).data ++ [';', ' '])))))) : List Char) := by
    intro hm
    simp only [List.mem_append] at hm
    rcases hm with h | h | h | h | h | h | h | h
    · cases sel <;> exact absurd h (by decide)
    · exact absurd h (by decide)
    · exact formatFixed_no_underscore 1 score h
    · exact absurd h (by decide)
    · cases phase <;> exact absurd h (by decide)
    · exact absurd h (by decide)
    · exact natChars_no_underscore anchors h
    · exact absurd h (by decide)
  simp only [parseLeadGroup]
  rw [hdata, findLeadGroupCapture_skip _ _ hpre,
    findLeadGroupCapture_at n₀.data _ hne hwc]
  fin_cases hn6 <;> decide

/-- Witness for C10 on a concrete group-hits mapping. -/
theorem c10_rationale_lead_group_roundtrip_witness :
    parseLeadGroup (buildRationale Phase.before (86/10) 2
        [("institutional_grammar", 7), ("decay_diagnostics", 0),
         ("democratic_urgency", 1)] false) = "institutional_grammar" ∧
    ("institutional_grammar", (7 : Nat)) ∈
      [("institutional_grammar", 7), ("decay_diagnostics", 0),
       ("democratic_urgency", 1)] ∧
    ∀ p ∈ [(("institutional_grammar" : String), (7 : Nat)),
        ("decay_diagnostics", 0), ("democratic_urgency", 1)], p.2 ≤ 7 :=
  c10_rationale_lead_group_roundtrip Phase.before (86/10) 2
    [("institutional_grammar", 7), ("decay_diagnostics", 0),
     ("democratic_urgency", 1)] false (by decide)
    "institutional_grammar" 7
    [("democratic_urgency", 1), ("decay_diagnostics", 0)] (by decide)

end ShivArchive
